import Mathlib

/-
  Verification of the provider ingestion & reconciliation core of the
  my-purchases/web repository, shallowly embedded in Lean 4.

  Sources embedded here:
  - src/stores/purchaseStore.ts   (addPurchases, deletePurchase,
    deleteSelectedPurchases, clearProviderPurchases, clearAllPurchases)
  - src/providers/temu/mapper.ts
  - src/providers/aliexpress/mapper.ts and AliexpressProvider.ts
  - src/providers/amazon/AmazonProvider.ts
  - src/providers/vinted/VintedProvider.ts
  - src/providers/ebay/EbayProvider.ts
  - src/providers/allegro mapper (mapCsvToPurchases, parseCsvLine, unquote)

  Conventions of the embedding:
  - JS numbers are modelled as rationals; NaN is modelled through Option
    (none = NaN) in the parse functions.  The JS float literal parser is
    modelled faithfully for sign / digits / decimal point / exponent; the
    "Infinity" literal is not modelled (no theorem depends on it).
  - JS undefined-or-empty string fields are Option String; truthiness of a
    string is "present and nonempty".
  - The Dexie store is a list of records; add appends, update modifies the
    records with the given primary key in place, get is the first record
    with the key.
  - Host Date parsing (new Date(s).toISOString()) is an explicit parameter
    nd : String → Option String (none = Invalid Date, for which
    toISOString throws); computations that can throw return Except.
  - "now" (new Date().toISOString()) is an explicit String parameter.
-/

namespace PW

/-! ## JS primitive models -/

/-- Numeric value of an ASCII digit character. -/
def digitVal (c : Char) : Nat := c.toNat - 48

/-- Decimal value of a list of digit characters (most significant first). -/
def digitsToNat (l : List Char) : Nat :=
  l.foldl (fun a c => 10 * a + digitVal c) 0

/-- Whitespace skipped by JS parseFloat / parseInt. -/
def isJsSpace (c : Char) : Bool :=
  c = ' ' || c = '\t' || c = '\n' || c = '\r'

/-- Exponent digits after an optional sign; an empty digit run means the
exponent part is ignored (JS parseFloat backtracks), modelled as 0. -/
def expAfterSign (sgn : Int) (r : List Char) : Int :=
  let ds := r.takeWhile (·.isDigit)
  if ds.isEmpty then 0 else sgn * (digitsToNat ds : Int)

/-- Optional sign of an exponent part. -/
def expSigned : List Char → Int
  | '+' :: r => expAfterSign 1 r
  | '-' :: r => expAfterSign (-1) r
  | r => expAfterSign 1 r

/-- Exponent part of a JS float literal (e or E), 0 when absent/ignored. -/
def expOf : List Char → Int
  | 'e' :: r => expSigned r
  | 'E' :: r => expSigned r
  | _ => 0

/-- Mantissa of a JS float literal: digits, optionally a decimal point and
more digits.  Returns the value and the unconsumed rest, or none when no
digit was consumed (NaN). -/
def mantissa (l : List Char) : Option (ℚ × List Char) :=
  match l.dropWhile (·.isDigit) with
  | '.' :: r2 =>
    if (l.takeWhile (·.isDigit)).isEmpty && (r2.takeWhile (·.isDigit)).isEmpty then none
    else some ((digitsToNat (l.takeWhile (·.isDigit)) : ℚ) +
      (digitsToNat (r2.takeWhile (·.isDigit)) : ℚ) / (10 : ℚ) ^ (r2.takeWhile (·.isDigit)).length,
      r2.dropWhile (·.isDigit))
  | _ =>
    if (l.takeWhile (·.isDigit)).isEmpty then none
    else some ((digitsToNat (l.takeWhile (·.isDigit)) : ℚ), l.dropWhile (·.isDigit))

/-- JS parseFloat on a character list: leading whitespace, optional sign,
mantissa, optional exponent; none models NaN. -/
def jsParseFloatChars (l : List Char) : Option ℚ :=
  match l.dropWhile isJsSpace with
  | '-' :: r => (mantissa r).map (fun m => -(m.1 * (10 : ℚ) ^ expOf m.2))
  | '+' :: r => (mantissa r).map (fun m => m.1 * (10 : ℚ) ^ expOf m.2)
  | r => (mantissa r).map (fun m => m.1 * (10 : ℚ) ^ expOf m.2)

/-- JS parseFloat. -/
def jsParseFloat (s : String) : Option ℚ :=
  jsParseFloatChars s.data

/-- Models the `parseFloat(x) || 0` / `isNaN(v) ? 0 : v` idioms: both map
NaN to 0 (and leave 0 at 0). -/
def floatOrZero (s : String) : ℚ :=
  (jsParseFloat s).getD 0

/-- JS parseInt(s, 10); none models NaN. -/
def jsParseIntChars (l : List Char) : Option Int :=
  match l.dropWhile isJsSpace with
  | '-' :: r =>
    let ds := r.takeWhile (·.isDigit)
    if ds.isEmpty then none else some (-(digitsToNat ds : Int))
  | '+' :: r =>
    let ds := r.takeWhile (·.isDigit)
    if ds.isEmpty then none else some ((digitsToNat ds : Int))
  | r =>
    let ds := r.takeWhile (·.isDigit)
    if ds.isEmpty then none else some ((digitsToNat ds : Int))

/-- JS parseInt(s, 10). -/
def jsParseInt (s : String) : Option Int :=
  jsParseIntChars s.data

/-- Models `parseInt(x, 10) || 1`. -/
def intOrOne (s : String) : Int :=
  match jsParseInt s with
  | none => 1
  | some v => if v = 0 then 1 else v

/-- Models `parseInt(x, 10) || 0`. -/
def intOrZero (s : String) : Int :=
  match jsParseInt s with
  | none => 0
  | some v => v

/-- Replace the first occurrence of a character (JS
String.prototype.replace with a string pattern). -/
def replaceFirstChar : List Char → Char → Char → List Char
  | [], _, _ => []
  | c :: t, a, b => if c = a then b :: t else c :: replaceFirstChar t a b

/-- Index of the last occurrence of a character, -1 when absent
(JS String.prototype.lastIndexOf). -/
def lastIdxOf (l : List Char) (c : Char) : Int :=
  (go l 0).getD (-1)
where
  /-- Last index of the character at or after position i. -/
  go : List Char → Nat → Option Int
    | [], _ => none
    | a :: t, i =>
      match go t (i + 1) with
      | some j => some j
      | none => if a = c then some (i : Int) else none

/-- JS String.prototype.includes. -/
def strContains (s sub : String) : Bool :=
  decide (sub.data <:+: s.data)

/-- JS truthiness of an optional string field (undefined and "" are falsy). -/
def strTruthy : Option String → Bool
  | none => false
  | some s => s != ""

/-- JS String.prototype.trim (on the character list). -/
def jsTrim (l : List Char) : List Char :=
  ((l.dropWhile Char.isWhitespace).reverse.dropWhile Char.isWhitespace).reverse

/-- JS String.prototype.split with a single-character separator. -/
def splitOnChar (sep : Char) : List Char → List (List Char)
  | [] => [[]]
  | c :: t =>
    if c = sep then [] :: splitOnChar sep t
    else
      match splitOnChar sep t with
      | [] => [[c]]
      | h :: r => (c :: h) :: r

/-- Models `v || undefined` on a string: an empty string becomes undefined. -/
def orUndef (s : String) : Option String :=
  if s = "" then none else some s

/-- Models Array.prototype.map over a callback that can throw: elements
are mapped left to right and the first exception aborts the whole map. -/
def mapThrow (f : α → Except ε β) : List α → Except ε (List β)
  | [] => Except.ok []
  | x :: t =>
    match f x with
    | Except.error e => Except.error e
    | Except.ok y =>
      match mapThrow f t with
      | Except.error e => Except.error e
      | Except.ok ys => Except.ok (y :: ys)

/-- new Date(d).toISOString() for a truthiness-checked optional date
string: a falsy date yields the current instant, a present but
unparseable date throws. -/
def dateOrThrow (nd : String → Option String) (now : String) (d : Option String) :
    Except String String :=
  if strTruthy d then
    match nd (d.getD "") with
    | some iso => Except.ok iso
    | none => Except.error "Invalid time value"
  else Except.ok now

/-! ## Canonical purchase record and store (src/db/database.ts) -/

/-- Opaque stand-in for the free-form rawData object of a purchase record.
A JS object is always truthy, so truthiness of the field is `isSome`.
(convertedPrice/convertedCurrency are never touched by the embedded
operations and are omitted.) -/
structure RawData where
  payload : String
deriving DecidableEq, Repr

/-- Canonical purchase record (interface Purchase in src/db/database.ts). -/
structure Purchase where
  id : String
  providerId : String
  providerItemId : String
  title : String
  price : ℚ
  currency : String
  purchaseDate : String
  imageUrl : Option String := none
  categoryName : Option String := none
  originalUrl : Option String := none
  rawData : Option RawData := none
  importedAt : String := ""
deriving DecidableEq, Repr

/-- Tag assignment record (interface TagAssignment in src/db/database.ts),
restricted to the fields the deletion operations read. -/
structure TagAssignment where
  id : String
  targetId : String
  tagGroupId : String
deriving DecidableEq, Repr

/-- The slice of the Dexie database touched by the purchase store's
deletion operations. -/
structure DBState where
  purchases : List Purchase
  tagAssignments : List TagAssignment
  purchaseGroups : List String
deriving DecidableEq, Repr

/-! ## Reconciliation engine (addPurchases, src/stores/purchaseStore.ts) -/

/-- The dedup key string built by addPurchases on both sides of the merge:
providerId + "|" + providerItemId. -/
def dedupKey (p : Purchase) : String :=
  p.providerId ++ "|" ++ p.providerItemId

/-- The in-memory dedup index: key string to existing record id. -/
def KeyMap : Type := String → Option String

/-- Distinct provider ids of a batch in first-occurrence order
(`[...new Set(purchases.map(p => p.providerId))]`). -/
def uniqueProviderIds (ps : List Purchase) : List String :=
  ps.foldl (fun acc p => if p.providerId ∈ acc then acc else acc ++ [p.providerId]) []

/-- Build the existing-record index: for every provider id of the batch, in
order, iterate that provider's stored records and register key ↦ id
(later writes win, as with Map.set). -/
def buildExistingMap (store : List Purchase) (pids : List String) : KeyMap :=
  pids.foldl
    (fun m pid =>
      (store.filter (fun e => e.providerId = pid)).foldl
        (fun m e => fun k => if k = dedupKey e then some e.id else m k) m)
    (fun _ => none)

/-- The four identity fields compared to decide skip/enrich vs update. -/
def identicalCore (e p : Purchase) : Prop :=
  e.title = p.title ∧ e.price = p.price ∧ e.currency = p.currency ∧
    e.purchaseDate = p.purchaseDate

instance (e p : Purchase) : Decidable (identicalCore e p) := by
  unfold identicalCore; infer_instance

/-- The fieldsToEnrich object: for each optional field, the value to copy
when the existing record lacks it and the candidate supplies it. -/
structure EnrichPatch where
  imageUrl : Option String
  categoryName : Option String
  originalUrl : Option String
  rawData : Option RawData
deriving DecidableEq, Repr

/-- Compute fieldsToEnrich from the fetched existing record and the
candidate. -/
def enrichPatch (e p : Purchase) : EnrichPatch where
  imageUrl := if !strTruthy e.imageUrl && strTruthy p.imageUrl then p.imageUrl else none
  categoryName := if !strTruthy e.categoryName && strTruthy p.categoryName then p.categoryName else none
  originalUrl := if !strTruthy e.originalUrl && strTruthy p.originalUrl then p.originalUrl else none
  rawData := if e.rawData.isNone && p.rawData.isSome then p.rawData else none

/-- `Object.keys(fieldsToEnrich).length > 0`. -/
def patchNonempty (pt : EnrichPatch) : Bool :=
  pt.imageUrl.isSome || pt.categoryName.isSome || pt.originalUrl.isSome || pt.rawData.isSome

/-- Apply fieldsToEnrich to a stored record. -/
def applyEnrichPatch (pt : EnrichPatch) (r : Purchase) : Purchase :=
  { r with
    imageUrl := if pt.imageUrl.isSome then pt.imageUrl else r.imageUrl
    categoryName := if pt.categoryName.isSome then pt.categoryName else r.categoryName
    originalUrl := if pt.originalUrl.isSome then pt.originalUrl else r.originalUrl
    rawData := if pt.rawData.isSome then pt.rawData else r.rawData }

/-- The full overwrite performed by the update branch: title, price,
currency, purchaseDate, categoryName, imageUrl, originalUrl, rawData are
all set to the candidate's values. -/
def updatedPurchase (r p : Purchase) : Purchase :=
  { r with
    title := p.title, price := p.price, currency := p.currency,
    purchaseDate := p.purchaseDate, categoryName := p.categoryName,
    imageUrl := p.imageUrl, originalUrl := p.originalUrl,
    rawData := p.rawData }

/-- Dexie update by primary key: modify the records with the given id. -/
def updateById (store : List Purchase) (id : String) (f : Purchase → Purchase) : List Purchase :=
  store.map (fun r => if r.id = id then f r else r)

/-- State threaded through the addPurchases loop. -/
structure AddState where
  store : List Purchase
  keyMap : KeyMap
  added : Nat
  skipped : Nat
  updated : Nat
  enriched : Nat

/-- One iteration of the addPurchases loop (lines 170-232 of
purchaseStore.ts). -/
def processOne (st : AddState) (p : Purchase) : AddState :=
  let k := dedupKey p
  match st.keyMap k with
  | some existingId =>
    match st.store.find? (fun r => r.id == existingId) with
    | some existing =>
      if identicalCore existing p then
        let pt := enrichPatch existing p
        if patchNonempty pt then
          { st with store := updateById st.store existingId (applyEnrichPatch pt),
                    enriched := st.enriched + 1 }
        else
          { st with skipped := st.skipped + 1 }
      else
        { st with store := updateById st.store existingId (fun r => updatedPurchase r p),
                  updated := st.updated + 1 }
    | none =>
      { st with store := updateById st.store existingId (fun r => updatedPurchase r p),
                updated := st.updated + 1 }
  | none =>
    { st with store := st.store ++ [p],
              keyMap := fun k2 => if k2 = k then some p.id else st.keyMap k2,
              added := st.added + 1 }

/-- Result record returned by addPurchases. -/
structure ImportResult where
  added : Nat
  skipped : Nat
  updated : Nat
  enriched : Nat
  total : Nat
deriving DecidableEq, Repr

/-- The reconciliation engine: merge a batch of candidates into the store
(addPurchases, src/stores/purchaseStore.ts lines 152-235; the progress
callback performs no state change and is omitted). -/
def addPurchases (store : List Purchase) (purchases : List Purchase) :
    ImportResult × List Purchase :=
  let pids := uniqueProviderIds purchases
  let m := buildExistingMap store pids
  let final := purchases.foldl processOne
    { store := store, keyMap := m, added := 0, skipped := 0, updated := 0, enriched := 0 }
  ({ added := final.added, skipped := final.skipped, updated := final.updated,
     enriched := final.enriched, total := purchases.length }, final.store)

/-! ## Deletion operations (src/stores/purchaseStore.ts lines 237-269) -/

/-- deletePurchase: remove the record and the tag assignments whose
targetId references it. -/
def deletePurchase (db : DBState) (id : String) : DBState :=
  { db with
    purchases := db.purchases.filter (fun p => p.id != id),
    tagAssignments := db.tagAssignments.filter (fun a => a.targetId != id) }

/-- deleteSelectedPurchases: per selected id, delete the record and its tag
assignments (the loop body coincides with deletePurchase); returns the
number of selected ids. -/
def deleteSelectedPurchases (db : DBState) (ids : List String) : DBState × Nat :=
  if ids.isEmpty then (db, 0)
  else (ids.foldl deletePurchase db, ids.length)

/-- clearProviderPurchases: delete the provider's purchase records.  The
record count is only written to the console (the function returns void),
and tag assignments are not touched. -/
def clearProviderPurchases (db : DBState) (providerId : String) : DBState :=
  { db with purchases := db.purchases.filter (fun p => p.providerId != providerId) }

/-- clearAllPurchases: clear purchases, tag assignments and groups. -/
def clearAllPurchases (_db : DBState) : DBState :=
  { purchases := [], tagAssignments := [], purchaseGroups := [] }

/-- The decimal/thousands-separator decision shared verbatim by the Temu
and AliExpress parsePrice functions: a comma with no dot is the decimal
point; with both, the right-most one is the decimal separator and the
other character's occurrences are removed; the result goes through
parseFloat with a 0 fallback. -/
def separatorValue (cleaned : List Char) : ℚ :=
  if cleaned.contains ',' && !cleaned.contains '.' then
    floatOrZero (String.mk (replaceFirstChar cleaned ',' '.'))
  else if lastIdxOf cleaned ',' > lastIdxOf cleaned '.' then
    floatOrZero (String.mk (replaceFirstChar (cleaned.filter (fun c => c ≠ '.')) ',' '.'))
  else
    floatOrZero (String.mk (cleaned.filter (fun c => c ≠ ',')))

/-! ## Temu mapper (src/providers/temu/mapper.ts) -/

/-- Result of the Temu price parser: amount plus detected currency. -/
structure PriceResult where
  amount : ℚ
  currency : String
deriving DecidableEq, Repr

namespace Temu

/-- detectCurrency: case-insensitive substring match against a fixed
symbol/code table, defaulting to USD. -/
def detectCurrency (priceStr : String) : String :=
  let lower := priceStr.toLower
  if strContains lower "zł" || strContains lower "pln" then "PLN"
  else if strContains lower "€" || strContains lower "eur" then "EUR"
  else if strContains lower "£" || strContains lower "gbp" then "GBP"
  else if strContains lower "$" || strContains lower "usd" then "USD"
  else if strContains lower "czk" || strContains lower "kč" then "CZK"
  else if strContains lower "sek" || strContains lower "kr" then "SEK"
  else if strContains lower "ron" || strContains lower "lei" then "RON"
  else if strContains lower "huf" || strContains lower "ft" then "HUF"
  else if strContains lower "bgn" || strContains lower "лв" then "BGN"
  else "USD"

/-- Temu parsePrice (mapper.ts lines 17-49). -/
def parsePrice (raw : String) : PriceResult :=
  if jsTrim raw.data = [] then { amount := 0, currency := "USD" }
  else if (jsTrim raw.data).filter (fun c => c.isDigit || c = '.' || c = ',' || c = '-') = [] then
    { amount := 0, currency := detectCurrency (String.mk (jsTrim raw.data)) }
  else
    { amount := separatorValue
        ((jsTrim raw.data).filter (fun c => c.isDigit || c = '.' || c = ',' || c = '-')),
      currency := detectCurrency (String.mk (jsTrim raw.data)) }

/-- Match of the anchored regex used by the Temu date parser: four digits,
a slash-or-dash separator, one or two digits, another separator, one or
two digits, end of input. -/
def ymdMatch (l : List Char) : Option (Nat × Nat × Nat) :=
  let y := l.takeWhile (·.isDigit)
  let r1 := l.dropWhile (·.isDigit)
  if y.length = 4 then
    match r1 with
    | s1 :: r2 =>
      if s1 = '/' ∨ s1 = '-' then
        let m := r2.takeWhile (·.isDigit)
        let r3 := r2.dropWhile (·.isDigit)
        if 1 ≤ m.length ∧ m.length ≤ 2 then
          match r3 with
          | s2 :: r4 =>
            if s2 = '/' ∨ s2 = '-' then
              let d := r4.takeWhile (·.isDigit)
              let r5 := r4.dropWhile (·.isDigit)
              if 1 ≤ d.length ∧ d.length ≤ 2 ∧ r5 = [] then
                some (digitsToNat y, digitsToNat m, digitsToNat d)
              else none
            else none
          | [] => none
        else none
      else none
    | [] => none
  else none

/-- Zero-padded two-digit decimal. -/
def pad2 (n : Nat) : String :=
  if n < 10 then "0" ++ toString n else toString n

/-- Zero-padded four-digit decimal. -/
def pad4 (n : Nat) : String :=
  if n < 10 then "000" ++ toString n
  else if n < 100 then "00" ++ toString n
  else if n < 1000 then "0" ++ toString n
  else toString n

/-- Models new Date(Date.UTC(y, m-1, d, 12)).toISOString() for in-range
calendar components; the rollover Date.UTC applies to out-of-range
components is not modelled (no theorem depends on it). -/
def utcNoonISO (y m d : Nat) : String :=
  pad4 y ++ "-" ++ pad2 m ++ "-" ++ pad2 d ++ "T12:00:00.000Z"

/-- Temu parseDate (mapper.ts lines 137-165): Y/M/D or Y-M-D becomes UTC
noon of that day; otherwise the host date parser nd is tried; empty or
unparseable input falls back to the current instant. -/
def parseDate (nd : String → Option String) (now : String) (raw : String) : String :=
  if jsTrim raw.data = [] then now
  else
    match ymdMatch (jsTrim raw.data) with
    | some ymd => utcNoonISO ymd.1 ymd.2.1 ymd.2.2
    | none =>
      match nd (String.mk (jsTrim raw.data)) with
      | some iso => iso
      | none => now

/-- A parsed Temu CSV row, restricted to the columns the mapper reads; a
missing column is the empty string (parseCsvToRows trims every value). -/
structure TemuCsvRow where
  itemDescription : String := ""
  orderId : String := ""
  priceStr : String := ""
  shippingCost : String := ""
  priceTax : String := ""
  orderTotal : String := ""
  orderTime : String := ""
  orderDetailUrl : String := ""
  shippedDate : String := ""
deriving DecidableEq, Repr

/-- Temu mapCsvRowToPurchase (mapper.ts lines 169-201).  The parsed
shipping/tax amounts only flow into rawData, which is opaque here. -/
def mapCsvRowToPurchase (nd : String → Option String) (now : String)
    (row : TemuCsvRow) : Option Purchase :=
  if row.itemDescription = "" ∨ row.orderId = "" then none
  else
    let pr := parsePrice row.priceStr
    let ot := parsePrice row.orderTotal
    some
      { id := "temu-" ++ row.orderId
        providerId := "temu"
        providerItemId := row.orderId
        title := row.itemDescription
        price := if ot.amount > 0 then ot.amount else pr.amount
        currency := pr.currency
        purchaseDate := parseDate nd now row.orderTime
        originalUrl := orUndef row.orderDetailUrl
        rawData := some ⟨"temu"⟩
        importedAt := now }

end Temu

/-! ## AliExpress mapper (src/providers/aliexpress/mapper.ts and
AliexpressProvider.ts) -/

namespace Aliexpress

/-- AliExpress parsePrice (mapper.ts lines 15-33). -/
def parsePrice (raw : String) : ℚ :=
  if raw = "" then 0
  else separatorValue (raw.data.filter (fun c => c.isDigit || c = '.' || c = ','))

/-- AliExpress parsePriceInfo (mapper.ts lines 39-49): pipe-delimited
integer/fractional parts, falling back to parsePrice on the first part. -/
def parsePriceInfo (priceInfo : String) : ℚ :=
  if priceInfo = "" then 0
  else
    let parts := priceInfo.splitOn "|"
    if parts.length ≥ 3 then
      (intOrZero (parts.getD 1 "") : ℚ) + (intOrZero (parts.getD 2 "") : ℚ) / 100
    else
      parsePrice (parts.getD 0 "")

/-- A Shopper Inventory JSON item (types.ts), restricted to read fields. -/
structure ShopperInventoryItem where
  itemId : String := ""
  orderId : String := ""
  orderLineId : String := ""
  productId : String := ""
  skuId : String := ""
  title : String := ""
  price : String := ""
  priceInfo : String := ""
  currency : String := ""
  quantity : ℚ := 0
  orderDate : String := ""
  orderDateIso : String := ""
  status : String := ""
  storeName : String := ""
  storePageUrl : String := ""
  productUrl : String := ""
  imageUrl : String := ""
  attributes : String := ""
deriving DecidableEq, Repr

/-- AliExpress mapJsonItemToPurchase (mapper.ts lines 53-80).  The date
goes through new Date(...).toISOString() with no guard, so an unparseable
date string throws (Except.error). -/
def mapJsonItemToPurchase (nd : String → Option String) (now : String)
    (item : ShopperInventoryItem) : Except String Purchase :=
  let pi := parsePriceInfo item.priceInfo
  let price := if pi = 0 then parsePrice item.price else pi
  match (if item.orderDateIso ≠ "" then nd item.orderDateIso else nd item.orderDate) with
  | none => Except.error "Invalid time value"
  | some purchaseDate =>
    Except.ok
    { id := "aliexpress-" ++ item.orderLineId ++ "-" ++ item.productId ++ "-" ++ item.skuId
      providerId := "aliexpress"
      providerItemId := item.productId
      title := item.title
      price := price * (if item.quantity = 0 then 1 else item.quantity)
      currency := if item.currency = "" then "USD" else item.currency
      purchaseDate := purchaseDate
      imageUrl := orUndef item.imageUrl
      originalUrl := orUndef item.productUrl
      rawData := some ⟨"aliexpress"⟩
      importedAt := now }

/-- AliexpressProvider.parseJsonFile (lines 111-123): keep only items with
status "Completed", then map them.  The raw JSON decoding is not embedded;
the function operates on the decoded item list. -/
def parseJsonFile (nd : String → Option String) (now : String)
    (items : List ShopperInventoryItem) : Except String (List Purchase) :=
  mapThrow (mapJsonItemToPurchase nd now) (items.filter (fun item => item.status = "Completed"))

/-- A parsed AliExpress CSV row (types.ts), restricted to read columns; a
missing column is the empty string. -/
structure AliexpressCsvRow where
  title : String := ""
  orderId : String := ""
  productId : String := ""
  skuId : String := ""
  priceInfo : String := ""
  priceStr : String := ""
  qty : String := ""
  currency : String := ""
  orderDate : String := ""
  status : String := ""
  storeName : String := ""
  storeUrl : String := ""
  attributes : String := ""
  productImageUrl : String := ""
  productUrl : String := ""
deriving DecidableEq, Repr

/-- AliExpress mapCsvRowToPurchase (mapper.ts lines 140-183); the date
conversion is wrapped in try/catch, so an unparseable date falls back to
the current instant instead of throwing. -/
def mapCsvRowToPurchase (nd : String → Option String) (now : String)
    (row : AliexpressCsvRow) : Option Purchase :=
  if row.title = "" ∨ row.orderId = "" then none
  else
    let pi := parsePriceInfo row.priceInfo
    let price := if pi = 0 then parsePrice row.priceStr else pi
    let quantity := intOrOne (if row.qty = "" then "1" else row.qty)
    let purchaseDate := (nd row.orderDate).getD now
    some
      { id := "aliexpress-" ++ row.orderId ++ "-" ++ row.productId ++ "-" ++ row.skuId
        providerId := "aliexpress"
        providerItemId := if row.productId = "" then row.orderId else row.productId
        title := row.title
        price := price * (quantity : ℚ)
        currency := if row.currency = "" then "USD" else row.currency
        purchaseDate := purchaseDate
        imageUrl := orUndef row.productImageUrl
        originalUrl := orUndef row.productUrl
        rawData := some ⟨"aliexpress"⟩
        importedAt := now }

/-- AliexpressProvider.parseCsvFile (lines 125-139): keep only rows with
Status "Completed", then map and drop rejects. -/
def parseCsvFile (nd : String → Option String) (now : String)
    (rows : List AliexpressCsvRow) : List Purchase :=
  (rows.filter (fun row => row.status = "Completed")).filterMap (mapCsvRowToPurchase nd now)

/-- An "Order Information" sheet row after the String/Number coercions
performed by parseXlsxFile (AliexpressProvider.ts lines 156-170). -/
structure XlsxOrderRow where
  order_id : String := ""
  parent_orderid : String := ""
  gmt_create_order_time : String := ""
  order_status : String := ""
  item_name : String := ""
  unit_price : ℚ := 0
  payable_amt : ℚ := 0
  gmt_pay_order_time : String := ""
  gmt_trade_end_time : String := ""
  end_reason : String := ""
  is_success_pay : String := ""
  frozen_status : String := ""
deriving DecidableEq, Repr

/-- AliExpress mapXlsxRowToPurchase (mapper.ts lines 187-228): cents are
divided by 100; the date conversion is guarded by try/catch; no filtering
on order_status happens here. -/
def mapXlsxRowToPurchase (nd : String → Option String) (now : String)
    (row : XlsxOrderRow) : Option Purchase :=
  if row.order_id = "" ∨ row.item_name = "" then none
  else
    let price := row.payable_amt / 100
    let purchaseDate :=
      if row.gmt_create_order_time = "" then now
      else (nd row.gmt_create_order_time).getD now
    some
      { id := "aliexpress-" ++ row.order_id
        providerId := "aliexpress"
        providerItemId := row.order_id
        title := row.item_name
        price := price
        currency := "USD"
        purchaseDate := purchaseDate
        rawData := some ⟨"aliexpress"⟩
        importedAt := now }

/-- AliexpressProvider.parseXlsxFile (lines 141-176) after sheet
extraction and cell coercion: every row is mapped, with no status
filtering. -/
def parseXlsxFile (nd : String → Option String) (now : String)
    (rows : List XlsxOrderRow) : List Purchase :=
  rows.filterMap (mapXlsxRowToPurchase nd now)

end Aliexpress

/-! ## Amazon mapper (src/providers/amazon/AmazonProvider.ts) -/

namespace Amazon

/-- Quote characters stripped from the edges by Amazon parsePrice. -/
def isQuoteChar (c : Char) : Bool := c = '\'' || c = '"'

/-- Strip leading and trailing runs of quotes/apostrophes
(replace(/^['"]+|['"]+$/g, '')). -/
def stripEdgeQuotes (l : List Char) : List Char :=
  ((l.dropWhile isQuoteChar).reverse.dropWhile isQuoteChar).reverse

/-- Amazon parsePrice (AmazonProvider.ts lines 89-97): strip edge quotes,
remove every comma as a thousands separator, parseFloat, 0 on NaN. -/
def parsePrice (raw : Option String) : ℚ :=
  match raw with
  | none => 0
  | some s =>
    if s = "" then 0
    else (jsParseFloatChars ((stripEdgeQuotes s.data).filter (fun c => c ≠ ','))).getD 0

/-- A parsed Amazon CSV/JSON row, restricted to the accessed columns
(undefined when the column is absent). -/
structure AmazonRow where
  productName : Option String := none
  titleAlt : Option String := none
  productNameLc : Option String := none
  orderDate : Option String := none
  orderDateLc : Option String := none
  orderId : Option String := none
  orderIdLc : Option String := none
  asin : Option String := none
  currency : Option String := none
  currencyLc : Option String := none
  originalQuantity : Option String := none
  unitPrice : Option String := none
  itemTotal : Option String := none
  totalOwed : Option String := none
  totalAmount : Option String := none
  totalDiscounts : Option String := none
  website : Option String := none
  seller : Option String := none
  orderStatus : Option String := none
deriving DecidableEq, Repr

/-- Amazon website field to URL domain:
website.toLowerCase().replace(/^amazon\./, 'www.amazon.'). -/
def websiteDomain (website : String) : String :=
  let lower := website.toLower
  if lower.startsWith "amazon." then "www.amazon." ++ lower.drop 7 else lower

/-- Amazon mapRowToPurchase (AmazonProvider.ts lines 101-157).  The order
total takes precedence over unit price × quantity whenever it is nonzero
(the `totalAmount || unitPrice * quantity` idiom); the date conversions
are unguarded, so a present-but-unparseable Order Date throws. -/
def mapRowToPurchase (nd : String → Option String) (now : String)
    (row : AmazonRow) (index : Nat) : Except String (Option Purchase) :=
  let title := ((row.productName).orElse (fun _ => row.titleAlt)).getD ((row.productNameLc).getD "")
  let dateStr := (row.orderDate).getD ((row.orderDateLc).getD "")
  let orderId := (row.orderId).getD ((row.orderIdLc).getD "")
  let asin := (row.asin).getD ""
  let currency := (row.currency).getD ((row.currencyLc).getD "EUR")
  let quantity := intOrOne ((row.originalQuantity).getD "1")
  let unitPrice := parsePrice ((row.unitPrice).orElse (fun _ => (row.itemTotal).orElse (fun _ => row.totalOwed)))
  let totalAmount := parsePrice row.totalAmount
  let website := (row.website).getD ""
  if title = "" ∨ orderId = "" then
    Except.ok none
  else
    match (if dateStr ≠ "" then (nd dateStr).map some else some none) with
    | none => Except.error "Invalid time value"
    | some iso =>
    let datePart :=
      match iso with
      | some iso => String.mk ((splitOnChar 'T' iso.data).getD 0 iso.data)
      | none => "nodate"
    let originalUrl :=
      if asin ≠ "" ∧ website ≠ "" then
        some ("https://" ++ websiteDomain website ++ "/dp/" ++ asin)
      else none
    Except.ok (some
      { id := "amazon-" ++ orderId ++ "-" ++ datePart ++ "-" ++
          (if asin ≠ "" then asin else toString index)
        providerId := "amazon"
        providerItemId := if asin ≠ "" then asin else orderId
        title := title
        price := if totalAmount ≠ 0 then totalAmount else unitPrice * (quantity : ℚ)
        currency := currency
        purchaseDate := (iso.getD now)
        originalUrl := originalUrl
        rawData := some ⟨"amazon"⟩
        importedAt := now })

end Amazon

/-! ## Vinted mapper (src/providers/vinted/VintedProvider.ts) -/

/-- A JS value that is either a number or a string (price fields). -/
inductive JsPrice where
  | num (q : ℚ)
  | str (s : String)
deriving DecidableEq, Repr

namespace Vinted

/-- A decoded Vinted import item (all fields optional). -/
structure ImportItem where
  itemId : Option String := none
  title : Option String := none
  price : Option JsPrice := none
  currency : Option String := none
  date : Option String := none
  category : Option String := none
  imageUrl : Option String := none
  url : Option String := none
deriving DecidableEq, Repr

/-- Models the price expression
`typeof item.price === 'string' ? parseFloat(item.price) : (item.price ?? 0)`.
A NaN result of parseFloat is not representable in ℚ and is modelled as 0;
no theorem depends on that value. -/
def priceOf : Option JsPrice → ℚ
  | some (.str s) => (jsParseFloat s).getD 0
  | some (.num q) => q
  | none => 0

/-- The per-item mapping inside vintedProvider.parseImportFile (lines
40-53).  A missing title becomes the placeholder "Unknown Item"; a
present-but-unparseable date throws via toISOString. -/
def mapItem (nd : String → Option String) (now : String)
    (item : ImportItem) (index : Nat) : Except String Purchase :=
  match dateOrThrow nd now item.date with
  | Except.error e => Except.error e
  | Except.ok purchaseDate =>
    Except.ok
    { id := "vinted-" ++ (item.itemId.getD (toString index))
      providerId := "vinted"
      providerItemId := item.itemId.getD (toString index)
      title := item.title.getD "Unknown Item"
      price := priceOf item.price
      currency := item.currency.getD "EUR"
      purchaseDate := purchaseDate
      imageUrl := item.imageUrl
      categoryName := item.category
      originalUrl := item.url
      rawData := some ⟨"vinted"⟩
      importedAt := now }

/-- vintedProvider.parseImportFile over the decoded item list (lines
31-54): every item is mapped with its array index; no rejection and no
status filtering happens. -/
def parseImportFile (nd : String → Option String) (now : String)
    (items : List ImportItem) : Except String (List Purchase) :=
  mapThrow (fun p => mapItem nd now p.2 p.1) items.enum

end Vinted

/-! ## eBay mapper (src/providers/ebay/EbayProvider.ts) -/

namespace Ebay

/-- A decoded eBay JSON import item (all fields optional). -/
structure ImportItem where
  orderId : Option String := none
  title : Option String := none
  price : Option JsPrice := none
  currency : Option String := none
  date : Option String := none
  category : Option String := none
  imageUrl : Option String := none
  url : Option String := none
  itemId : Option String := none
deriving DecidableEq, Repr

/-- eBay mapToPayment (EbayProvider.ts lines 79-94): a missing title
becomes "Unknown Item"; the id derives from the order id alone. -/
def mapToPayment (nd : String → Option String) (now : String)
    (item : ImportItem) (index : Nat) : Except String Purchase :=
  match dateOrThrow nd now item.date with
  | Except.error e => Except.error e
  | Except.ok purchaseDate =>
    Except.ok
    { id := "ebay-" ++ (item.orderId.getD (toString index))
      providerId := "ebay"
      providerItemId := item.itemId.getD (item.orderId.getD (toString index))
      title := item.title.getD "Unknown Item"
      price := Vinted.priceOf item.price
      currency := item.currency.getD "USD"
      purchaseDate := purchaseDate
      imageUrl := item.imageUrl
      categoryName := item.category
      originalUrl := item.url
      rawData := some ⟨"ebay"⟩
      importedAt := now }

/-- The JSON branch of ebayProvider.parseImportFile (lines 34-38). -/
def parseJsonItems (nd : String → Option String) (now : String)
    (items : List ImportItem) : Except String (List Purchase) :=
  mapThrow (fun p => mapToPayment nd now p.2 p.1) items.enum

/-- A naive eBay CSV row (split on commas, edge quotes stripped), reduced
to the accessed columns; i is the 1-based line index. -/
structure CsvRow where
  orderId : Option String := none
  orderIdLc : Option String := none
  itemId : Option String := none
  itemIdLc : Option String := none
  title : Option String := none
  itemTitle : Option String := none
  priceStr : Option String := none
  total : Option String := none
  currency : Option String := none
  date : Option String := none
  purchaseDate : Option String := none
  imageUrl : Option String := none
  category : Option String := none
deriving DecidableEq, Repr

/-- The CSV row mapping inside ebayProvider.parseImportFile (lines
52-64): the id again derives from the order id (or the line index). -/
def csvRowToPurchase (nd : String → Option String) (now : String)
    (row : CsvRow) (i : Nat) : Except String Purchase :=
  match dateOrThrow nd now ((row.date).orElse (fun _ => row.purchaseDate)) with
  | Except.error e => Except.error e
  | Except.ok purchaseDate =>
    Except.ok
    { id := "ebay-" ++ ((row.orderId).orElse (fun _ => row.orderIdLc)).getD (toString i)
      providerId := "ebay"
      providerItemId := ((row.itemId).orElse (fun _ => row.itemIdLc)).getD (toString i)
      title := ((row.title).orElse (fun _ => row.itemTitle)).getD "Unknown Item"
      price := floatOrZero (String.mk
        ((((row.priceStr).orElse (fun _ => row.total)).getD "0").data.filter
          (fun c => c.isDigit || c = '.' || c = '-')))
      currency := row.currency.getD "USD"
      purchaseDate := purchaseDate
      imageUrl := row.imageUrl
      categoryName := row.category
      rawData := some ⟨"ebay"⟩
      importedAt := now }

end Ebay

/-! ## Allegro CSV mapper (src/providers/allegro/mapper.ts) -/

namespace Allegro

/-- Strip surrounding single quotes after trimming (unquote). -/
def unquote (value : String) : String :=
  let t := jsTrim value.data
  if t.head? = some '\'' ∧ t.getLast? = some '\'' then
    String.mk (t.drop 1).dropLast
  else String.mk t

/-- The character-by-character state machine of parseCsvLine: semicolon
separated, single quotes toggle the in-quote state. -/
def parseCsvLineAux : List Char → List Char → Bool → List String
  | [], cur, _ => [String.mk cur.reverse]
  | c :: t, cur, inQ =>
    if c = '\'' ∧ ¬inQ then parseCsvLineAux t cur true
    else if c = '\'' ∧ inQ then parseCsvLineAux t cur false
    else if c = ';' ∧ ¬inQ then String.mk cur.reverse :: parseCsvLineAux t [] inQ
    else parseCsvLineAux t (c :: cur) inQ

/-- parseCsvLine (mapper.ts lines 214-235). -/
def parseCsvLine (line : String) : List String :=
  parseCsvLineAux line.data [] false

/-- Models text.split(new line or carriage-return new line) followed by
the nonblank filter of mapCsvToPurchases. -/
def splitLines (text : String) : List String :=
  (((splitOnChar '\n' text.data).map
      (fun l => if l.getLast? = some '\r' then l.dropLast else l)).filter
    (fun l => jsTrim l ≠ [])).map String.mk

/-- The body of the mapCsvToPurchases row loop, indexed by the 1-based
line number i (used in the generated id). -/
def mapCsvRows (now : String) : Nat → List String → List Purchase
  | _, [] => []
  | i, l :: t =>
    let fields := parseCsvLine l
    if fields.length < 5 then mapCsvRows now (i + 1) t
    else
      let offerId := unquote (fields.getD 0 "")
      let title := unquote (fields.getD 1 "")
      let purchaseDate := unquote (fields.getD 2 "")
      let quantity := intOrOne (unquote (fields.getD 3 ""))
      let unitPrice := jsParseFloat (unquote (fields.getD 4 ""))
      if offerId = "" ∨ title = "" ∨ unitPrice = none then mapCsvRows now (i + 1) t
      else
        { id := "allegro-csv-" ++ offerId ++ "-" ++ purchaseDate ++ "-" ++ toString i
          providerId := "allegro"
          providerItemId := offerId
          title := title
          price := unitPrice.getD 0 * (quantity : ℚ)
          currency := "PLN"
          purchaseDate := purchaseDate
          originalUrl := some ("https://allegro.pl/oferta/" ++ offerId)
          rawData := some ⟨"allegro"⟩
          importedAt := now } :: mapCsvRows now (i + 1) t

/-- Allegro mapCsvToPurchases (mapper.ts lines 272-316). -/
def mapCsvToPurchases (now : String) (text : String) : List Purchase :=
  let lines := splitLines text
  if lines.length < 2 then []
  else mapCsvRows now 1 (lines.drop 1)

end Allegro

/-! ## A concrete host date parser for witnesses -/

/-- A concrete model of new Date(s).toISOString() for closed witnesses
and counterexamples: it recognises the already-ISO shapes used in the
theorems below and reports Invalid Date (none) on everything else.
General theorems are stated over an arbitrary nd. -/
def ndModel (s : String) : Option String :=
  let l := s.data
  let ds := l.takeWhile (·.isDigit)
  let r1 := l.dropWhile (·.isDigit)
  if ds.length = 4 then
    match r1 with
    | '-' :: r2 =>
      let ms := r2.takeWhile (·.isDigit)
      let r3 := r2.dropWhile (·.isDigit)
      if ms.length = 2 then
        match r3 with
        | '-' :: r4 =>
          let dds := r4.takeWhile (·.isDigit)
          let r5 := r4.dropWhile (·.isDigit)
          if dds.length = 2 ∧ r5 = [] then
            some (String.mk (ds ++ '-' :: ms ++ '-' :: dds) ++ "T00:00:00.000Z")
          else none
        | _ => none
      else none
    | _ => none
  else none

/-! ## Concrete enrichment-path inputs -/

/-- An existing stored record with a populated category, no image, no
original url and no raw data. -/
def c5Existing : Purchase :=
  { id := "x1", providerId := "prov", providerItemId := "item", title := "T",
    price := 5, currency := "USD", purchaseDate := "D",
    categoryName := some "CatOld", importedAt := "I0" }

/-- A candidate with the same identity fields, a new image, raw data, and
a different category. -/
def c5Candidate : Purchase :=
  { id := "x2", providerId := "prov", providerItemId := "item", title := "T",
    price := 5, currency := "USD", purchaseDate := "D",
    imageUrl := some "http://img", categoryName := some "CatNew",
    rawData := some ⟨"raw"⟩, importedAt := "I1" }

/-- A loop state holding the existing record with its dedup key
registered. -/
def c5State : AddState :=
  { store := [c5Existing],
    keyMap := fun k => if k = "prov|item" then some "x1" else none,
    added := 0, skipped := 0, updated := 0, enriched := 0 }

/-- Decimal digit characters of a number, most significant first (the
list Nat.toDigits 10 computes, fuel-free). -/
def decDigits (n : Nat) : List Char :=
  if _h : n < 10 then [Nat.digitChar n]
  else decDigits (n / 10) ++ [Nat.digitChar (n % 10)]
termination_by n
decreasing_by exact Nat.div_lt_self (by omega) (by decide)

/-! ## Concrete batch candidates with a shared dedup key -/

/-- First candidate of an intra-batch duplicate pair. -/
def c1P : Purchase :=
  { id := "temu-1", providerId := "temu", providerItemId := "1", title := "A",
    price := 1, currency := "USD", purchaseDate := "D1", importedAt := "I" }

/-- Second candidate of the pair: same (providerId, providerItemId) pair,
different identity fields. -/
def c1Q : Purchase :=
  { id := "temu-1b", providerId := "temu", providerItemId := "1", title := "B",
    price := 2, currency := "USD", purchaseDate := "D2", importedAt := "I" }

/-! ## Concrete Temu rows sharing an order id -/

/-- First Temu CSV row with order id O1. -/
def c9Row1 : Temu.TemuCsvRow := { itemDescription := "A", orderId := "O1" }

/-- Second Temu CSV row, distinct item, same order id O1. -/
def c9Row2 : Temu.TemuCsvRow := { itemDescription := "B", orderId := "O1" }

/-- The record the Temu mapper produces for the first row. -/
def c9P1 : Purchase :=
  { id := "temu-O1", providerId := "temu", providerItemId := "O1", title := "A",
    price := 0, currency := "USD", purchaseDate := "NOW",
    rawData := some ⟨"temu"⟩, importedAt := "NOW" }

/-- The record the Temu mapper produces for the second row. -/
def c9P2 : Purchase :=
  { id := "temu-O1", providerId := "temu", providerItemId := "O1", title := "B",
    price := 0, currency := "USD", purchaseDate := "NOW",
    rawData := some ⟨"temu"⟩, importedAt := "NOW" }

/-! ## Claim C10: deletion cascade for tag assignments -/

/-- Assignments surviving a deletePurchase fold were present initially. -/
theorem mem_of_foldl_deletePurchase (ids : List String) (db : DBState)
    (a : TagAssignment) (h : a ∈ (ids.foldl deletePurchase db).tagAssignments) :
    a ∈ db.tagAssignments := by
  induction ids generalizing db with
  | nil => simpa using h
  | cons i t ih =>
    have h2 := ih (deletePurchase db i) h
    exact List.mem_of_mem_filter h2

/-- Assignments surviving a deletePurchase fold reference none of the ids. -/
theorem foldl_deletePurchase_targets (ids : List String) (db : DBState)
    (a : TagAssignment) (h : a ∈ (ids.foldl deletePurchase db).tagAssignments) :
    a.targetId ∉ ids := by
  induction ids generalizing db with
  | nil => simp
  | cons i t ih =>
    have hmem : a ∈ (deletePurchase db i).tagAssignments :=
      mem_of_foldl_deletePurchase t (deletePurchase db i) a h
    have hne : a.targetId ≠ i := by
      have := (List.mem_filter.mp hmem).2
      simpa [bne_iff_ne] using this
    have hnott := ih (deletePurchase db i) h
    simp [hne, hnott]

/-- Claim C10 (amended): after deletePurchase, deleteSelectedPurchases and
clearAllPurchases no tag assignment referencing a deleted purchase id
remains; clearProviderPurchases deletes only the provider's purchase
records and leaves every tag assignment in place (it also returns no
count — the count is only logged). -/
theorem claim_C10 (db : DBState) (pid i : String) (ids : List String)
    (a b : TagAssignment) :
    (a ∈ (deletePurchase db i).tagAssignments → a.targetId ≠ i) ∧
    (b ∈ (deleteSelectedPurchases db ids).1.tagAssignments → b.targetId ∉ ids) ∧
    (clearAllPurchases db).tagAssignments = [] ∧
    (clearProviderPurchases db pid).tagAssignments = db.tagAssignments := by
  refine ⟨?_, ?_, rfl, rfl⟩
  · intro h
    have := (List.mem_filter.mp h).2
    simpa [bne_iff_ne] using this
  · intro h
    unfold deleteSelectedPurchases at h
    by_cases hids : ids.isEmpty
    · cases ids with
      | nil => simp
      | cons x t => simp at hids
    · simp only [hids, if_neg] at h
      exact foldl_deletePurchase_targets ids db b h

/-- Witness for claim C10 at a concrete store: the surviving assignment
references a different purchase id. -/
theorem claim_C10_witness :
    ((⟨"a1", "y", "g"⟩ : TagAssignment).targetId ≠ "x") ∧
    ((⟨"a1", "y", "g"⟩ : TagAssignment).targetId ∉ (["x"] : List String)) :=
  have h := claim_C10 ⟨[], [⟨"a1", "y", "g"⟩], []⟩ "p" "x" ["x"]
    ⟨"a1", "y", "g"⟩ ⟨"a1", "y", "g"⟩
  ⟨h.1 (by decide), h.2.1 (by decide)⟩

/-- Claim C3 (amended): the Temu, AliExpress CSV and AliExpress XLSX
mappers reject a record whose title or primary id is missing or empty
(null), and the Amazon mapper likewise resolves to null; the Vinted and
eBay mappers instead accept such records, substituting the placeholder
title "Unknown Item" for a missing title. -/
theorem claim_C3 (nd : String → Option String) (now : String)
    (trow : Temu.TemuCsvRow) (arow : Aliexpress.AliexpressCsvRow)
    (xrow : Aliexpress.XlsxOrderRow) (amrow : Amazon.AmazonRow) (idx : Nat)
    (vitem : Vinted.ImportItem) (eitem : Ebay.ImportItem) :
    (trow.itemDescription = "" ∨ trow.orderId = "" →
      Temu.mapCsvRowToPurchase nd now trow = none) ∧
    (arow.title = "" ∨ arow.orderId = "" →
      Aliexpress.mapCsvRowToPurchase nd now arow = none) ∧
    (xrow.order_id = "" ∨ xrow.item_name = "" →
      Aliexpress.mapXlsxRowToPurchase nd now xrow = none) ∧
    (amrow.productName = none → amrow.titleAlt = none → amrow.productNameLc = none →
      Amazon.mapRowToPurchase nd now amrow idx = Except.ok none) ∧
    (vitem.title = none → ∀ p, Vinted.mapItem nd now vitem idx = Except.ok p →
      p.title = "Unknown Item") ∧
    (eitem.title = none → ∀ p, Ebay.mapToPayment nd now eitem idx = Except.ok p →
      p.title = "Unknown Item") := by
  refine ⟨?_, ?_, ?_, ?_, ?_, ?_⟩
  · intro h; unfold Temu.mapCsvRowToPurchase; simp [h]
  · intro h; unfold Aliexpress.mapCsvRowToPurchase; simp [h]
  · intro h; unfold Aliexpress.mapXlsxRowToPurchase; simp [h]
  · intro h1 h2 h3
    unfold Amazon.mapRowToPurchase
    simp [h1, h2, h3]
  · intro ht p hp
    unfold Vinted.mapItem at hp
    cases hdt : dateOrThrow nd now vitem.date with
    | error e => rw [hdt] at hp; cases hp
    | ok d =>
      rw [hdt] at hp
      injection hp with h
      subst h
      simp [ht]
  · intro ht p hp
    unfold Ebay.mapToPayment at hp
    cases hdt : dateOrThrow nd now eitem.date with
    | error e => rw [hdt] at hp; cases hp
    | ok d =>
      rw [hdt] at hp
      injection hp with h
      subst h
      simp [ht]

/-- Witness for claim C3 at concrete empty rows. -/
theorem claim_C3_witness :
    Temu.mapCsvRowToPurchase ndModel "NOW" {} = none ∧
    Aliexpress.mapCsvRowToPurchase ndModel "NOW" {} = none ∧
    Aliexpress.mapXlsxRowToPurchase ndModel "NOW" {} = none ∧
    Amazon.mapRowToPurchase ndModel "NOW" {} 0 = Except.ok none ∧
    (Vinted.mapItem ndModel "NOW" {} 0).map Purchase.title = Except.ok "Unknown Item" := by
  have h := claim_C3 ndModel "NOW" {} {} {} {} 0 {} {}
  refine ⟨h.1 (Or.inl rfl), h.2.1 (Or.inl rfl), h.2.2.1 (Or.inl rfl), h.2.2.2.1 rfl rfl rfl, ?_⟩
  have e : Vinted.mapItem ndModel "NOW" ({} : Vinted.ImportItem) 0 =
      Except.ok { id := "vinted-0", providerId := "vinted", providerItemId := "0",
                  title := "Unknown Item", price := 0, currency := "EUR",
                  purchaseDate := "NOW", rawData := some ⟨"vinted"⟩,
                  importedAt := "NOW" } := rfl
  have hv := h.2.2.2.2.1 rfl _ e
  rw [e, Except.map, hv]

/-- Claim C3 counterexample: the Vinted mapper maps an item with no title
to a stored record carrying the placeholder title "Unknown Item" instead
of rejecting it. -/
theorem claim_C3_cex :
    Vinted.parseImportFile ndModel "NOW" [{ itemId := some "7", price := some (.num 5) }] =
      Except.ok [{ id := "vinted-7", providerId := "vinted", providerItemId := "7",
                   title := "Unknown Item", price := 5, currency := "EUR",
                   purchaseDate := "NOW", rawData := some ⟨"vinted"⟩,
                   importedAt := "NOW" }] := rfl

/-- Claim C4 (amended): the mapped price is the provider-reported order
total when it takes precedence, with the precedence test being
"greater than zero" for Temu but "nonzero" for Amazon (a negative Total
Amount also wins); otherwise Temu falls back to the Price field and
Amazon to unit price times quantity.  In particular unit 45.99 with
order total 51.49 maps to price 51.49. -/
theorem claim_C4 (nd : String → Option String) (now : String)
    (trow : Temu.TemuCsvRow) (amrow : Amazon.AmazonRow) (idx : Nat) :
    (∀ p, Temu.mapCsvRowToPurchase nd now trow = some p →
      ((Temu.parsePrice trow.orderTotal).amount > 0 →
        p.price = (Temu.parsePrice trow.orderTotal).amount) ∧
      (¬(Temu.parsePrice trow.orderTotal).amount > 0 →
        p.price = (Temu.parsePrice trow.priceStr).amount)) ∧
    (∀ p, Amazon.mapRowToPurchase nd now amrow idx = Except.ok (some p) →
      (Amazon.parsePrice amrow.totalAmount ≠ 0 →
        p.price = Amazon.parsePrice amrow.totalAmount) ∧
      (Amazon.parsePrice amrow.totalAmount = 0 →
        p.price = Amazon.parsePrice
            ((amrow.unitPrice).orElse (fun _ => (amrow.itemTotal).orElse (fun _ => amrow.totalOwed))) *
          (intOrOne ((amrow.originalQuantity).getD "1") : ℚ))) ∧
    (Temu.mapCsvRowToPurchase nd now
        { itemDescription := "Example", orderId := "PO-1", priceStr := "45,99 zł",
          orderTotal := "51,49 zł" }).map Purchase.price = some (5149 / 100 : ℚ) := by
  refine ⟨?_, ?_, ?_⟩
  · intro p hp
    by_cases hr : trow.itemDescription = "" ∨ trow.orderId = ""
    · simp [Temu.mapCsvRowToPurchase, hr] at hp
    · simp only [Temu.mapCsvRowToPurchase, hr, if_false, Option.some.injEq] at hp
      constructor
      · intro hpos; rw [← hp]; simp [hpos]
      · intro hneg; rw [← hp]; simp [hneg]
  · intro p hp
    simp only [Amazon.mapRowToPurchase] at hp
    by_cases hr : (((amrow.productName).orElse fun _ => amrow.titleAlt).getD
        ((amrow.productNameLc).getD "")) = "" ∨
        ((amrow.orderId).getD ((amrow.orderIdLc).getD "")) = ""
    · rw [if_pos hr] at hp
      cases hp
    · rw [if_neg hr] at hp
      cases hds : (if ((amrow.orderDate).getD ((amrow.orderDateLc).getD "")) ≠ "" then
          (nd ((amrow.orderDate).getD ((amrow.orderDateLc).getD ""))).map some
        else some none) with
      | none => rw [hds] at hp; cases hp
      | some iso =>
        rw [hds] at hp
        injection hp with h
        injection h with h2
        constructor
        · intro hne; rw [← h2]; simp [hne]
        · intro hz; rw [← h2]; simp [hz]
  · with_unfolding_all rfl

set_option maxRecDepth 100000 in
/-- Witness for claim C4 at a concrete Temu row whose order total is
absent: the price falls back to the Price field. -/
theorem claim_C4_witness :
    ({ id := "temu-1", providerId := "temu", providerItemId := "1",
       title := "T", price := 0, currency := "USD", purchaseDate := "NOW",
       rawData := some ⟨"temu"⟩, importedAt := "NOW" } : Purchase).price = 0 := by
  have h := claim_C4 ndModel "NOW" { itemDescription := "T", orderId := "1" } {} 0
  have hp : Temu.mapCsvRowToPurchase ndModel "NOW"
      { itemDescription := "T", orderId := "1" } =
      some { id := "temu-1", providerId := "temu", providerItemId := "1",
             title := "T", price := 0, currency := "USD", purchaseDate := "NOW",
             rawData := some ⟨"temu"⟩, importedAt := "NOW" } := by
    with_unfolding_all rfl
  have ha := (h.1 _ hp).2 (by with_unfolding_all decide)
  have hval : (Temu.parsePrice "").amount = 0 := by with_unfolding_all decide
  exact ha.trans hval

/-- Claim C4 counterexample: an Amazon row with unit price 45.99,
quantity 1 and a negative reported Total Amount of -6.66 maps to price
-6.66, not to the claimed unit-price fallback 45.99 (the total is not
greater than zero, yet it still takes precedence). -/
theorem claim_C4_cex :
    (Amazon.mapRowToPurchase ndModel "NOW"
        { productName := some "Widget", orderId := some "O-1",
          originalQuantity := some "1", unitPrice := some "45.99",
          totalAmount := some "'-6.66'" } 0).map (fun r => r.map Purchase.price) =
      Except.ok (some (-(333 / 50) : ℚ)) ∧ ¬((-(333 / 50) : ℚ) = (4599 / 100 : ℚ)) := by
  exact ⟨by with_unfolding_all rfl, by norm_num⟩

/-- An element of a successful mapThrow result comes from some input
element. -/
theorem mapThrow_ok_mem (f : α → Except ε β) (l : List α) (res : List β)
    (h : mapThrow f l = Except.ok res) (b : β) (hb : b ∈ res) :
    ∃ a ∈ l, f a = Except.ok b := by
  induction l generalizing res with
  | nil =>
    unfold mapThrow at h
    injection h with h
    subst h
    cases hb
  | cons x t ih =>
    unfold mapThrow at h
    cases hfx : f x with
    | error e => rw [hfx] at h; cases h
    | ok y =>
      rw [hfx] at h
      cases hmt : mapThrow f t with
      | error e => rw [hmt] at h; cases h
      | ok ys =>
        rw [hmt] at h
        injection h with h
        subst h
        cases hb with
        | head => exact ⟨x, List.mem_cons_self x t, hfx⟩
        | tail _ hb2 =>
          obtain ⟨a, ha, hfa⟩ := ih ys hmt hb2
          exact ⟨a, List.mem_cons_of_mem x ha, hfa⟩

/-- The AliExpress JSON mapper preserves the item title. -/
theorem mapJsonItem_title (nd : String → Option String) (now : String)
    (item : Aliexpress.ShopperInventoryItem) (p : Purchase)
    (h : Aliexpress.mapJsonItemToPurchase nd now item = Except.ok p) :
    p.title = item.title := by
  unfold Aliexpress.mapJsonItemToPurchase at h
  cases hnd : (if item.orderDateIso ≠ "" then nd item.orderDateIso else nd item.orderDate) with
  | none => rw [hnd] at h; cases h
  | some iso =>
    rw [hnd] at h
    injection h with h
    subst h
    rfl

/-- The AliExpress CSV mapper preserves the row title. -/
theorem mapCsvRow_title (nd : String → Option String) (now : String)
    (row : Aliexpress.AliexpressCsvRow) (p : Purchase)
    (h : Aliexpress.mapCsvRowToPurchase nd now row = some p) :
    p.title = row.title := by
  unfold Aliexpress.mapCsvRowToPurchase at h
  by_cases hr : row.title = "" ∨ row.orderId = ""
  · simp [hr] at h
  · simp only [hr, if_false, Option.some.injEq] at h
    subst h
    rfl

/-- Claim C6 (amended): the AliExpress JSON and CSV import paths return
records only for rows whose status is exactly "Completed", and each
returned record carries the title of such a row; but the AliExpress XLSX
path and the Amazon mapper perform no status filtering at all — any row
with nonempty title and order id is mapped regardless of its status
value. -/
theorem claim_C6 (nd : String → Option String) (now : String)
    (items : List Aliexpress.ShopperInventoryItem) (res : List Purchase)
    (rows : List Aliexpress.AliexpressCsvRow)
    (xrow : Aliexpress.XlsxOrderRow) (amrow : Amazon.AmazonRow)
    (idx : Nat) (t o : String) :
    (Aliexpress.parseJsonFile nd now items = Except.ok res →
      ∀ p ∈ res, ∃ item ∈ items, item.status = "Completed" ∧ p.title = item.title) ∧
    (∀ p ∈ Aliexpress.parseCsvFile nd now rows,
      ∃ row ∈ rows, row.status = "Completed" ∧ p.title = row.title) ∧
    (xrow.order_id ≠ "" → xrow.item_name ≠ "" →
      ∃ p, Aliexpress.mapXlsxRowToPurchase nd now xrow = some p ∧ p.title = xrow.item_name) ∧
    (amrow.productName = some t → t ≠ "" → amrow.orderId = some o → o ≠ "" →
      amrow.orderDate = none → amrow.orderDateLc = none →
      ∃ p, Amazon.mapRowToPurchase nd now amrow idx = Except.ok (some p) ∧ p.title = t) := by
  refine ⟨?_, ?_, ?_, ?_⟩
  · intro h p hp
    obtain ⟨item, hmem, hok⟩ :=
      mapThrow_ok_mem (Aliexpress.mapJsonItemToPurchase nd now) _ res h p hp
    have hm := List.mem_filter.mp hmem
    refine ⟨item, hm.1, by simpa using hm.2, mapJsonItem_title nd now item p hok⟩
  · intro p hp
    obtain ⟨row, hmem, hok⟩ := List.mem_filterMap.mp hp
    have hm := List.mem_filter.mp hmem
    refine ⟨row, hm.1, by simpa using hm.2, mapCsvRow_title nd now row p hok⟩
  · intro h1 h2
    unfold Aliexpress.mapXlsxRowToPurchase
    rw [if_neg (by simp [h1, h2])]
    exact ⟨_, rfl, rfl⟩
  · intro hpn ht hoid ho hod hodlc
    unfold Amazon.mapRowToPurchase
    simp only [hpn, hoid, hod, hodlc, Option.orElse, Option.getD]
    simp [ht, ho]

/-- Witness for claim C6: a two-item JSON batch with one Completed and
one Cancelled item yields exactly the Completed item's record. -/
theorem claim_C6_witness :
    ∃ item ∈ [({ title := "Good", status := "Completed", orderDateIso := "2024-01-02" } :
        Aliexpress.ShopperInventoryItem),
      { title := "Cancelled Order Item", status := "Cancelled", orderDateIso := "2024-01-03" }],
      item.status = "Completed" ∧
        ({ id := "aliexpress---", providerId := "aliexpress", providerItemId := "",
           title := "Good", price := 0, currency := "USD",
           purchaseDate := "2024-01-02T00:00:00.000Z",
           rawData := some ⟨"aliexpress"⟩, importedAt := "NOW" } : Purchase).title =
          item.title := by
  have h := claim_C6 ndModel "NOW"
    [{ title := "Good", status := "Completed", orderDateIso := "2024-01-02" },
     { title := "Cancelled Order Item", status := "Cancelled", orderDateIso := "2024-01-03" }]
    [{ id := "aliexpress---", providerId := "aliexpress", providerItemId := "",
       title := "Good", price := 0, currency := "USD",
       purchaseDate := "2024-01-02T00:00:00.000Z",
       rawData := some ⟨"aliexpress"⟩, importedAt := "NOW" }]
    [] {} {} 0 "" ""
  exact h.1 (by with_unfolding_all rfl) _ (List.mem_singleton.mpr rfl)

/-- Claim C6 counterexample: the AliExpress XLSX path maps a row whose
order_status is "Cancelled", and its title appears in the output —
refuting the claim that every provider path with a status field drops
non-completed rows. -/
theorem claim_C6_cex :
    (Aliexpress.parseXlsxFile ndModel "NOW"
        [{ order_id := "1", item_name := "Cancelled Thing",
           order_status := "Cancelled" }]).map Purchase.title = ["Cancelled Thing"] := by
  with_unfolding_all rfl

/-! ## No-digit inputs parse to NaN: support lemmas -/

/-- takeWhile isDigit of a digit-free list is empty. -/
theorem takeWhile_digit_nil (l : List Char) (h : ∀ c ∈ l, c.isDigit = false) :
    l.takeWhile (·.isDigit) = [] := by
  cases l with
  | nil => rfl
  | cons a t => simp [List.takeWhile, h a (List.mem_cons_self a t)]

/-- dropWhile isDigit keeps a digit-free list intact. -/
theorem dropWhile_digit_self (l : List Char) (h : ∀ c ∈ l, c.isDigit = false) :
    l.dropWhile (·.isDigit) = l := by
  cases l with
  | nil => rfl
  | cons a t => simp [List.dropWhile, h a (List.mem_cons_self a t)]

/-- dropWhile only removes a prefix, so membership is preserved. -/
theorem mem_dropWhile (p : Char → Bool) (l : List Char) (c : Char)
    (h : c ∈ l.dropWhile p) : c ∈ l := by
  induction l with
  | nil => simp at h
  | cons a t ih =>
    by_cases hp : p a
    · simp only [List.dropWhile, hp] at h
      exact List.mem_cons_of_mem a (ih h)
    · simp only [List.dropWhile, hp] at h
      simpa using h

/-- Membership after replaceFirstChar: every character was already there
or is the replacement character. -/
theorem mem_replaceFirstChar (l : List Char) (a b c : Char)
    (h : c ∈ replaceFirstChar l a b) : c ∈ l ∨ c = b := by
  induction l with
  | nil => simp [replaceFirstChar] at h
  | cons x t ih =>
    unfold replaceFirstChar at h
    by_cases hx : x = a
    · rw [if_pos hx] at h
      cases h with
      | head => right; rfl
      | tail _ h2 => left; exact List.mem_cons_of_mem _ h2
    · rw [if_neg hx] at h
      cases h with
      | head => left; exact List.mem_cons_self _ _
      | tail _ h2 =>
        cases ih h2 with
        | inl h3 => left; exact List.mem_cons_of_mem _ h3
        | inr h3 => right; exact h3

/-- Membership is preserved by jsTrim. -/
theorem mem_jsTrim (l : List Char) (c : Char) (h : c ∈ jsTrim l) : c ∈ l := by
  unfold jsTrim at h
  rw [List.mem_reverse] at h
  have h2 := mem_dropWhile _ _ _ h
  rw [List.mem_reverse] at h2
  exact mem_dropWhile _ _ _ h2

/-- The mantissa of a digit-free character list is NaN. -/
theorem mantissa_none (l : List Char) (h : ∀ c ∈ l, c.isDigit = false) :
    mantissa l = none := by
  unfold mantissa
  rw [dropWhile_digit_self l h]
  cases l with
  | nil => rfl
  | cons a t =>
    by_cases ha : a = '.'
    · subst ha
      have ht2 : ∀ c ∈ t, c.isDigit = false :=
        fun c hc => h c (List.mem_cons_of_mem _ hc)
      simp [takeWhile_digit_nil _ h, takeWhile_digit_nil t ht2]
    · have hTW := takeWhile_digit_nil _ h
      split
      · next r2 heq =>
        have : a = '.' := by
          have := congrArg (fun l => l.head?) heq
          simpa using this
        exact absurd this ha
      · simp [hTW]

/-- JS parseFloat of a digit-free character list is NaN. -/
theorem jsParseFloatChars_none (l : List Char) (h : ∀ c ∈ l, c.isDigit = false) :
    jsParseFloatChars l = none := by
  have hd : ∀ c ∈ l.dropWhile isJsSpace, c.isDigit = false :=
    fun c hc => h c (mem_dropWhile _ _ _ hc)
  unfold jsParseFloatChars
  split
  · next r heq =>
    have : ∀ c ∈ r, c.isDigit = false :=
      fun c hc => hd c (heq ▸ List.mem_cons_of_mem _ hc)
    rw [mantissa_none r this]; rfl
  · next r heq =>
    have : ∀ c ∈ r, c.isDigit = false :=
      fun c hc => hd c (heq ▸ List.mem_cons_of_mem _ hc)
    rw [mantissa_none r this]; rfl
  · next heq _ _ =>
    rw [mantissa_none _ hd]; rfl

/-- floatOrZero of a digit-free character list is 0. -/
theorem floatOrZero_none (l : List Char) (h : ∀ c ∈ l, c.isDigit = false) :
    floatOrZero (String.mk l) = 0 := by
  unfold floatOrZero jsParseFloat
  rw [jsParseFloatChars_none _ h]
  rfl

/-- The shared separator logic yields 0 on digit-free input. -/
theorem separatorValue_none (cleaned : List Char)
    (h : ∀ c ∈ cleaned, c.isDigit = false) : separatorValue cleaned = 0 := by
  unfold separatorValue
  split
  · exact floatOrZero_none _ (fun c hc => by
      cases mem_replaceFirstChar _ _ _ _ hc with
      | inl h3 => exact h c h3
      | inr h3 => simp [h3])
  · split
    · exact floatOrZero_none _ (fun c hc => by
        cases mem_replaceFirstChar _ _ _ _ hc with
        | inl h3 => exact h c (List.mem_filter.mp h3).1
        | inr h3 => simp [h3])
    · exact floatOrZero_none _ (fun c hc => h c (List.mem_filter.mp hc).1)

/-- Claim C7 (amended): the dedicated money parsers (Temu, AliExpress,
Amazon) never throw — digit-free input parses to 0; the Temu date parser
never throws — empty input and input rejected by both the Y/M/D pattern
and the host parser fall back to the current instant; but the Vinted
mapper and the Amazon mapper pass a present-but-unparseable date string
to toISOString unguarded and throw, aborting the whole mapping. -/
theorem claim_C7 (nd : String → Option String) (now s raw d : String)
    (vitem : Vinted.ImportItem) (amrow : Amazon.AmazonRow) (idx : Nat) (t o : String) :
    ((∀ c ∈ s.data, c.isDigit = false) →
      (Temu.parsePrice s).amount = 0 ∧ Aliexpress.parsePrice s = 0 ∧
        Amazon.parsePrice (some s) = 0) ∧
    (Temu.parseDate nd now "" = now) ∧
    (jsTrim raw.data ≠ [] → Temu.ymdMatch (jsTrim raw.data) = none →
      nd (String.mk (jsTrim raw.data)) = none → Temu.parseDate nd now raw = now) ∧
    (vitem.date = some d → d ≠ "" → nd d = none →
      Vinted.mapItem nd now vitem idx = Except.error "Invalid time value") ∧
    (amrow.productName = some t → t ≠ "" → amrow.orderId = some o → o ≠ "" →
      amrow.orderDate = some d → d ≠ "" → nd d = none →
      Amazon.mapRowToPurchase nd now amrow idx = Except.error "Invalid time value") := by
  refine ⟨?_, ?_, ?_, ?_, ?_⟩
  · intro h
    refine ⟨?_, ?_, ?_⟩
    · unfold Temu.parsePrice
      by_cases h0 : jsTrim s.data = []
      · simp [h0]
      · rw [if_neg h0]
        by_cases h1 : (jsTrim s.data).filter
            (fun c => c.isDigit || c = '.' || c = ',' || c = '-') = []
        · simp [h1]
        · rw [if_neg h1]
          exact separatorValue_none _ (fun c hc =>
            h c (mem_jsTrim _ _ (List.mem_filter.mp hc).1))
    · unfold Aliexpress.parsePrice
      by_cases h0 : s = ""
      · simp [h0]
      · rw [if_neg h0]
        exact separatorValue_none _ (fun c hc => h c (List.mem_filter.mp hc).1)
    · show (if s = "" then (0 : ℚ)
        else (jsParseFloatChars ((Amazon.stripEdgeQuotes s.data).filter
          (fun c => c ≠ ','))).getD 0) = 0
      by_cases h0 : s = ""
      · simp [h0]
      · rw [if_neg h0]
        have hq : ∀ c ∈ Amazon.stripEdgeQuotes s.data, c ∈ s.data := by
          intro c hc
          unfold Amazon.stripEdgeQuotes at hc
          rw [List.mem_reverse] at hc
          have h2 := mem_dropWhile _ _ _ hc
          rw [List.mem_reverse] at h2
          exact mem_dropWhile _ _ _ h2
        rw [jsParseFloatChars_none _ (fun c hc =>
          h c (hq c (List.mem_filter.mp hc).1))]
        rfl
  · rfl
  · intro h1 h2 h3
    unfold Temu.parseDate
    rw [if_neg h1, h2, h3]
  · intro hdate hne hnd
    unfold Vinted.mapItem
    have hthrow : dateOrThrow nd now vitem.date = Except.error "Invalid time value" := by
      unfold dateOrThrow
      rw [hdate]
      have hT : strTruthy (some d) = true := by simp [strTruthy, hne]
      rw [if_pos hT]
      simp [hnd]
    rw [hthrow]
  · intro hpn ht hoid ho hod hdne hnd
    unfold Amazon.mapRowToPurchase
    rw [if_neg (by simp [hpn, hoid, ht, ho])]
    have hds : ((amrow.orderDate).getD ((amrow.orderDateLc).getD "")) = d := by
      simp [hod]
    rw [if_pos (by rw [hds]; exact hdne), hds, hnd]
    rfl

/-- Witness for claim C7 at concrete inputs: a digit-free money string
parses to 0 everywhere, unparseable dates fall back to now for Temu, and
the Vinted mapper throws on a bad date. -/
theorem claim_C7_witness :
    (Temu.parsePrice "n/a").amount = 0 ∧ Aliexpress.parsePrice "n/a" = 0 ∧
    Amazon.parsePrice (some "n/a") = 0 ∧
    Temu.parseDate ndModel "NOW" "" = "NOW" ∧
    Temu.parseDate ndModel "NOW" "not a date" = "NOW" ∧
    Vinted.mapItem ndModel "NOW" { date := some "bad date" } 0 =
      Except.error "Invalid time value" := by
  have h := claim_C7 ndModel "NOW" "n/a" "not a date" "bad date"
    { date := some "bad date" } {} 0 "" ""
  have hm := h.1 (by decide)
  refine ⟨hm.1, hm.2.1, hm.2.2, h.2.1, ?_, ?_⟩
  · exact h.2.2.1 (by with_unfolding_all decide) (by with_unfolding_all decide)
      (by with_unfolding_all decide)
  · exact h.2.2.2.1 rfl (by decide) (by with_unfolding_all decide)

/-- Claim C7 counterexample: a batch with one good Vinted item and one
item carrying an unparseable date aborts entirely with an exception —
the malformed field does abort the otherwise-good row, and nothing is
returned. -/
theorem claim_C7_cex :
    Vinted.parseImportFile ndModel "NOW"
      [{ title := some "Good", price := some (.num 1) },
       { title := some "Bad", date := some "not-a-date" }] =
      Except.error "Invalid time value" := by
  with_unfolding_all rfl

/-! ## Separator handling (claim C8): support lemmas about digit lists -/

/-- A digit character differs from any non-digit character. -/
theorem ne_of_digit (c d : Char) (h : c.isDigit = true) (hd : d.isDigit = false) :
    c ≠ d := by
  intro e
  subst e
  exact Bool.noConfusion (h.symm.trans hd)

/-- A non-digit character is not a member of an all-digit list. -/
theorem not_mem_of_digits (l : List Char) (d : Char) (hl : ∀ c ∈ l, c.isDigit = true)
    (hd : d.isDigit = false) : d ∉ l :=
  fun m => Bool.noConfusion ((hl d m).symm.trans hd)

/-- A digit is not JS whitespace. -/
theorem digit_not_jsSpace (c : Char) (h : c.isDigit = true) : isJsSpace c = false := by
  have h1 : c ≠ ' ' := ne_of_digit c ' ' h (by decide)
  have h2 : c ≠ '\t' := ne_of_digit c '\t' h (by decide)
  have h3 : c ≠ '\n' := ne_of_digit c '\n' h (by decide)
  have h4 : c ≠ '\r' := ne_of_digit c '\r' h (by decide)
  simp [isJsSpace, h1, h2, h3, h4]

/-- A digit is not one of the quote characters Amazon parsePrice strips. -/
theorem digit_not_quote (c : Char) (h : c.isDigit = true) :
    Amazon.isQuoteChar c = false := by
  have h1 : c ≠ '\'' := ne_of_digit c '\'' h (by decide)
  have h2 : c ≠ '"' := ne_of_digit c '"' h (by decide)
  simp [Amazon.isQuoteChar, h1, h2]

/-- takeWhile over an all-true prefix followed by a stopping element. -/
theorem takeWhile_all_append (p : Char → Bool) (x : List Char) (b : Char) (y : List Char)
    (hx : ∀ c ∈ x, p c = true) (hb : p b = false) :
    (x ++ b :: y).takeWhile p = x := by
  induction x with
  | nil => simp [List.takeWhile, hb]
  | cons c t ih =>
    have hc := hx c (List.mem_cons_self _ _)
    simp [List.takeWhile, hc, ih (fun d hd => hx d (List.mem_cons_of_mem _ hd))]

/-- dropWhile over an all-true prefix followed by a stopping element. -/
theorem dropWhile_all_append (p : Char → Bool) (x : List Char) (b : Char) (y : List Char)
    (hx : ∀ c ∈ x, p c = true) (hb : p b = false) :
    (x ++ b :: y).dropWhile p = b :: y := by
  induction x with
  | nil => simp [List.dropWhile, hb]
  | cons c t ih =>
    have hc := hx c (List.mem_cons_self _ _)
    simp [List.dropWhile, hc, ih (fun d hd => hx d (List.mem_cons_of_mem _ hd))]

/-- takeWhile keeps a list on which the predicate always holds. -/
theorem takeWhile_all (p : Char → Bool) (l : List Char) (hl : ∀ c ∈ l, p c = true) :
    l.takeWhile p = l := by
  induction l with
  | nil => rfl
  | cons c t ih =>
    simp [List.takeWhile, hl c (List.mem_cons_self _ _),
      ih (fun d hd => hl d (List.mem_cons_of_mem _ hd))]

/-- dropWhile empties a list on which the predicate always holds. -/
theorem dropWhile_all (p : Char → Bool) (l : List Char) (hl : ∀ c ∈ l, p c = true) :
    l.dropWhile p = [] := by
  induction l with
  | nil => rfl
  | cons c t ih =>
    simp [List.dropWhile, hl c (List.mem_cons_self _ _),
      ih (fun d hd => hl d (List.mem_cons_of_mem _ hd))]

/-- dropWhile keeps a list on which the predicate never holds. -/
theorem dropWhile_nofirst (p : Char → Bool) (l : List Char)
    (h : ∀ c ∈ l, p c = false) : l.dropWhile p = l := by
  cases l with
  | nil => rfl
  | cons a t => simp [List.dropWhile, h a (List.mem_cons_self _ _)]

/-- filter keeps a list on which the predicate always holds. -/
theorem filter_all_true (p : Char → Bool) (l : List Char) (hl : ∀ c ∈ l, p c = true) :
    l.filter p = l := by
  induction l with
  | nil => rfl
  | cons c t ih =>
    simp [List.filter, hl c (List.mem_cons_self _ _),
      ih (fun d hd => hl d (List.mem_cons_of_mem _ hd))]

/-- replaceFirstChar past an occurrence-free prefix rewrites the first
occurrence and nothing else. -/
theorem replaceFirstChar_append (x : List Char) (a b : Char) (y : List Char)
    (hx : ∀ c ∈ x, c ≠ a) :
    replaceFirstChar (x ++ a :: y) a b = x ++ b :: y := by
  induction x with
  | nil => simp [replaceFirstChar]
  | cons c t ih =>
    have hc := hx c (List.mem_cons_self _ _)
    simp [replaceFirstChar, hc, ih (fun d hd => hx d (List.mem_cons_of_mem _ hd))]

/-- List.contains is true at a member. -/
theorem contains_of_mem (l : List Char) (c : Char) (h : c ∈ l) :
    l.contains c = true := by
  induction l with
  | nil => cases h
  | cons a t ih =>
    cases h with
    | head => simp
    | tail _ h2 =>
      simp
      exact Or.inr h2

/-- List.contains is false at a non-member. -/
theorem contains_eq_false (l : List Char) (c : Char) (h : c ∉ l) :
    l.contains c = false := by
  induction l with
  | nil => rfl
  | cons a t ih =>
    have h1 : c ≠ a := fun e => h (e ▸ List.mem_cons_self _ _)
    have h2 : c ∉ t := fun m => h (List.mem_cons_of_mem _ m)
    simp [h1, h2]

/-- Mantissa of digits, a decimal point and more digits: integer part plus
scaled fractional part, nothing left over. -/
theorem mantissa_digits_dot (x y : List Char) (hx : x ≠ [])
    (hdx : ∀ c ∈ x, c.isDigit = true) (hdy : ∀ c ∈ y, c.isDigit = true) :
    mantissa (x ++ '.' :: y) =
      some ((digitsToNat x : ℚ) + (digitsToNat y : ℚ) / (10 : ℚ) ^ y.length, []) := by
  have hdot : ('.' : Char).isDigit = false := by decide
  have hdw : (x ++ '.' :: y).dropWhile (·.isDigit) = '.' :: y :=
    dropWhile_all_append _ x '.' y hdx hdot
  have htw : (x ++ '.' :: y).takeWhile (·.isDigit) = x :=
    takeWhile_all_append _ x '.' y hdx hdot
  have hty : y.takeWhile (·.isDigit) = y := takeWhile_all _ y hdy
  have hdy2 : y.dropWhile (·.isDigit) = [] := dropWhile_all _ y hdy
  have hxe : x.isEmpty = false := by
    cases x with
    | nil => exact absurd rfl hx
    | cons a t => rfl
  unfold mantissa
  split
  · next r2 heq =>
    rw [hdw] at heq
    injection heq with _ h2
    subst h2
    rw [htw, hty, hdy2, hxe]
    simp
  · next h1 =>
    exact absurd hdw (h1 y)

/-- Mantissa of a nonempty all-digit list: its decimal value, nothing
left over. -/
theorem mantissa_digits_all (l : List Char) (hl : l ≠ [])
    (hd : ∀ c ∈ l, c.isDigit = true) :
    mantissa l = some ((digitsToNat l : ℚ), []) := by
  have hdw : l.dropWhile (·.isDigit) = [] := dropWhile_all _ l hd
  have htw : l.takeWhile (·.isDigit) = l := takeWhile_all _ l hd
  have hle : l.isEmpty = false := by
    cases l with
    | nil => exact absurd rfl hl
    | cons a t => rfl
  unfold mantissa
  split
  · next r2 heq => rw [hdw] at heq; cases heq
  · next =>
    rw [htw, hdw, hle]
    simp

/-- JS parseFloat of digits, a decimal point and more digits. -/
theorem jsParseFloatChars_dot (x y : List Char) (hx : x ≠ [])
    (hdx : ∀ c ∈ x, c.isDigit = true) (hdy : ∀ c ∈ y, c.isDigit = true) :
    jsParseFloatChars (x ++ '.' :: y) =
      some ((digitsToNat x : ℚ) + (digitsToNat y : ℚ) / (10 : ℚ) ^ y.length) := by
  obtain ⟨c, x', rfl⟩ : ∃ c x', x = c :: x' := by
    cases x with
    | nil => exact absurd rfl hx
    | cons c x' => exact ⟨c, x', rfl⟩
  have hc : c.isDigit = true := hdx c (List.mem_cons_self _ _)
  have hsp : ((c :: x') ++ '.' :: y).dropWhile isJsSpace = (c :: x') ++ '.' :: y := by
    simp [List.dropWhile, digit_not_jsSpace c hc]
  unfold jsParseFloatChars
  rw [hsp]
  split
  · next r heq =>
    exfalso
    rw [List.cons_append] at heq
    injection heq with h1 _
    exact ne_of_digit c '-' hc (by decide) h1
  · next r heq =>
    exfalso
    rw [List.cons_append] at heq
    injection heq with h1 _
    exact ne_of_digit c '+' hc (by decide) h1
  · next =>
    rw [mantissa_digits_dot (c :: x') y (List.cons_ne_nil c x') hdx hdy]
    simp [expOf]

/-- JS parseFloat of a nonempty all-digit list. -/
theorem jsParseFloatChars_all (l : List Char) (hl : l ≠ [])
    (hd : ∀ c ∈ l, c.isDigit = true) :
    jsParseFloatChars l = some ((digitsToNat l : ℚ)) := by
  obtain ⟨c, l', rfl⟩ : ∃ c l', l = c :: l' := by
    cases l with
    | nil => exact absurd rfl hl
    | cons c l' => exact ⟨c, l', rfl⟩
  have hc : c.isDigit = true := hd c (List.mem_cons_self _ _)
  have hsp : (c :: l').dropWhile isJsSpace = c :: l' := by
    simp [List.dropWhile, digit_not_jsSpace c hc]
  unfold jsParseFloatChars
  rw [hsp]
  split
  · next r heq =>
    exfalso
    injection heq with h1 _
    exact ne_of_digit c '-' hc (by decide) h1
  · next r heq =>
    exfalso
    injection heq with h1 _
    exact ne_of_digit c '+' hc (by decide) h1
  · next =>
    rw [mantissa_digits_all (c :: l') (List.cons_ne_nil c l') hd]
    simp [expOf]

/-- lastIdxOf.go finds nothing in a list not containing the character. -/
theorem lastIdxOf_go_not_mem (c : Char) (l : List Char) (i : Nat) (h : c ∉ l) :
    lastIdxOf.go c l i = none := by
  induction l generalizing i with
  | nil => rfl
  | cons a t ih =>
    have h1 : a ≠ c := fun e => h (e ▸ List.mem_cons_self _ _)
    unfold lastIdxOf.go
    rw [ih (i + 1) (fun m => h (List.mem_cons_of_mem _ m))]
    simp [h1]

/-- lastIdxOf.go at a head occurrence with no later occurrence returns the
running index. -/
theorem lastIdxOf_go_head (c : Char) (y : List Char) (i : Nat) (h : c ∉ y) :
    lastIdxOf.go c (c :: y) i = some (i : Int) := by
  unfold lastIdxOf.go
  rw [lastIdxOf_go_not_mem c y (i + 1) h]
  simp

/-- A hit inside the suffix of an appended list is the overall result of
lastIdxOf.go (later occurrences win). -/
theorem lastIdxOf_go_append_some (c : Char) (l1 l2 : List Char) (i : Nat) (j : Int)
    (h : lastIdxOf.go c l2 (i + l1.length) = some j) :
    lastIdxOf.go c (l1 ++ l2) i = some j := by
  induction l1 generalizing i with
  | nil => simpa using h
  | cons a t ih =>
    have e : i + 1 + t.length = i + (a :: t).length := by
      simp only [List.length_cons]
      omega
    have h2 : lastIdxOf.go c l2 (i + 1 + t.length) = some j := by rw [e]; exact h
    show lastIdxOf.go c (a :: (t ++ l2)) i = some j
    unfold lastIdxOf.go
    rw [ih (i + 1) h2]

/-- The last index of a character whose final occurrence follows a prefix x
is the length of x. -/
theorem lastIdxOf_last (c : Char) (x z : List Char) (hz : c ∉ z) :
    lastIdxOf (x ++ c :: z) c = (x.length : Int) := by
  have h1 : lastIdxOf.go c (c :: z) (0 + x.length) = some ((x.length : Int)) := by
    rw [lastIdxOf_go_head c z (0 + x.length) hz]
    simp
  have h2 := lastIdxOf_go_append_some c x (c :: z) 0 (x.length : Int) h1
  unfold lastIdxOf
  rw [h2]
  rfl

/-- A string built from a list with a nonempty prefix is not empty. -/
theorem stringMk_append_cons_ne (x : List Char) (c : Char) (y : List Char)
    (hx : x ≠ []) : String.mk (x ++ c :: y) ≠ "" := by
  cases x with
  | nil => exact absurd rfl hx
  | cons a t =>
    intro h
    have h2 : a :: (t ++ c :: y) = ([] : List Char) := congrArg String.data h
    cases h2

/-- stripEdgeQuotes is the identity on quote-free lists. -/
theorem stripEdgeQuotes_id (l : List Char) (h : ∀ c ∈ l, Amazon.isQuoteChar c = false) :
    Amazon.stripEdgeQuotes l = l := by
  unfold Amazon.stripEdgeQuotes
  rw [dropWhile_nofirst _ l h,
    dropWhile_nofirst _ l.reverse (fun c hc => h c (List.mem_reverse.mp hc)),
    List.reverse_reverse]

/-- Shape 1 of the shared separator logic: digits, one comma, digits — the
comma is the decimal point. -/
theorem separatorValue_comma_only (x y : List Char) (hx : x ≠ [])
    (hdx : ∀ c ∈ x, c.isDigit = true) (hdy : ∀ c ∈ y, c.isDigit = true) :
    separatorValue (x ++ ',' :: y) =
      (digitsToNat x : ℚ) + (digitsToNat y : ℚ) / (10 : ℚ) ^ y.length := by
  have hcm : (x ++ ',' :: y).contains ',' = true :=
    contains_of_mem _ _ (List.mem_append_right _ (List.mem_cons_self _ _))
  have hdotmem : '.' ∉ x ++ ',' :: y := by
    intro m
    rcases List.mem_append.mp m with h | h
    · exact not_mem_of_digits x '.' hdx (by decide) h
    · rcases List.mem_cons.mp h with h2 | h2
      · exact absurd h2 (by decide)
      · exact not_mem_of_digits y '.' hdy (by decide) h2
  have hdot : (x ++ ',' :: y).contains '.' = false := contains_eq_false _ _ hdotmem
  have hrep : replaceFirstChar (x ++ ',' :: y) ',' '.' = x ++ '.' :: y :=
    replaceFirstChar_append x ',' '.' y
      (fun c hc => ne_of_digit c ',' (hdx c hc) (by decide))
  unfold separatorValue
  rw [hcm, hdot]
  rw [if_pos (by decide)]
  rw [hrep]
  unfold floatOrZero jsParseFloat
  rw [show (String.mk (x ++ '.' :: y)).data = x ++ '.' :: y from rfl]
  rw [jsParseFloatChars_dot x y hx hdx hdy]
  rfl

/-- filter keeps everything except one failing element in the middle. -/
theorem filter_mid (p : Char → Bool) (x : List Char) (b : Char) (y : List Char)
    (hx : ∀ c ∈ x, p c = true) (hb : p b = false) (hy : ∀ c ∈ y, p c = true) :
    (x ++ b :: y).filter p = x ++ y := by
  rw [List.filter_append, filter_all_true p x hx]
  simp [List.filter, hb, filter_all_true p y hy]

/-- Shape 2 of the shared separator logic: the comma is right of the dot,
so the comma is the decimal point and the dot is removed as grouping. -/
theorem separatorValue_comma_last (x y z : List Char) (hx : x ≠ [])
    (hdx : ∀ c ∈ x, c.isDigit = true) (hdy : ∀ c ∈ y, c.isDigit = true)
    (hdz : ∀ c ∈ z, c.isDigit = true) :
    separatorValue (x ++ '.' :: (y ++ ',' :: z)) =
      (digitsToNat (x ++ y) : ℚ) + (digitsToNat z : ℚ) / (10 : ℚ) ^ z.length := by
  have hxy : x ++ y ≠ [] := fun h => hx (List.append_eq_nil.mp h).1
  have hdxy : ∀ c ∈ x ++ y, c.isDigit = true := by
    intro c hc
    rcases List.mem_append.mp hc with h | h
    · exact hdx c h
    · exact hdy c h
  have hdotc : (x ++ '.' :: (y ++ ',' :: z)).contains '.' = true :=
    contains_of_mem _ _ (List.mem_append_right _ (List.mem_cons_self _ _))
  have hcnm : ',' ∉ z := not_mem_of_digits z ',' hdz (by decide)
  have hcomma : lastIdxOf (x ++ '.' :: (y ++ ',' :: z)) ',' =
      ((x ++ '.' :: y).length : Int) := by
    rw [show x ++ '.' :: (y ++ ',' :: z) = (x ++ '.' :: y) ++ ',' :: z from by simp]
    exact lastIdxOf_last ',' (x ++ '.' :: y) z hcnm
  have hdnm : '.' ∉ y ++ ',' :: z := by
    intro m
    rcases List.mem_append.mp m with h | h
    · exact not_mem_of_digits y '.' hdy (by decide) h
    · rcases List.mem_cons.mp h with h2 | h2
      · exact absurd h2 (by decide)
      · exact not_mem_of_digits z '.' hdz (by decide) h2
  have hdotl : lastIdxOf (x ++ '.' :: (y ++ ',' :: z)) '.' = (x.length : Int) :=
    lastIdxOf_last '.' x (y ++ ',' :: z) hdnm
  have hgt : lastIdxOf (x ++ '.' :: (y ++ ',' :: z)) ',' >
      lastIdxOf (x ++ '.' :: (y ++ ',' :: z)) '.' := by
    rw [hcomma, hdotl]
    simp only [List.length_append, List.length_cons]
    omega
  have hflt : (x ++ '.' :: (y ++ ',' :: z)).filter (fun c => c ≠ '.') =
      (x ++ y) ++ ',' :: z := by
    rw [filter_mid _ x '.' (y ++ ',' :: z)
      (fun c hc => decide_eq_true (ne_of_digit c '.' (hdx c hc) (by decide)))
      (by decide)
      (fun c hc => by
        rcases List.mem_append.mp hc with h | h
        · exact decide_eq_true (ne_of_digit c '.' (hdy c h) (by decide))
        · rcases List.mem_cons.mp h with h2 | h2
          · subst h2; decide
          · exact decide_eq_true (ne_of_digit c '.' (hdz c h2) (by decide)))]
    rw [List.append_assoc]
  have hrep : replaceFirstChar ((x ++ y) ++ ',' :: z) ',' '.' = (x ++ y) ++ '.' :: z :=
    replaceFirstChar_append (x ++ y) ',' '.' z
      (fun c hc => by
        rcases List.mem_append.mp hc with h | h
        · exact ne_of_digit c ',' (hdx c h) (by decide)
        · exact ne_of_digit c ',' (hdy c h) (by decide))
  unfold separatorValue
  rw [hdotc]
  rw [if_neg (by simp)]
  rw [if_pos hgt]
  rw [hflt, hrep]
  unfold floatOrZero jsParseFloat
  rw [show (String.mk ((x ++ y) ++ '.' :: z)).data = (x ++ y) ++ '.' :: z from rfl]
  rw [jsParseFloatChars_dot (x ++ y) z hxy hdxy hdz]
  rfl

/-- Shape 3 of the shared separator logic: the dot is right of the comma,
so the dot is the decimal point and the comma is removed as grouping. -/
theorem separatorValue_dot_last (x y z : List Char) (hx : x ≠ [])
    (hdx : ∀ c ∈ x, c.isDigit = true) (hdy : ∀ c ∈ y, c.isDigit = true)
    (hdz : ∀ c ∈ z, c.isDigit = true) :
    separatorValue (x ++ ',' :: (y ++ '.' :: z)) =
      (digitsToNat (x ++ y) : ℚ) + (digitsToNat z : ℚ) / (10 : ℚ) ^ z.length := by
  have hxy : x ++ y ≠ [] := fun h => hx (List.append_eq_nil.mp h).1
  have hdxy : ∀ c ∈ x ++ y, c.isDigit = true := by
    intro c hc
    rcases List.mem_append.mp hc with h | h
    · exact hdx c h
    · exact hdy c h
  have hdotc : (x ++ ',' :: (y ++ '.' :: z)).contains '.' = true :=
    contains_of_mem _ _ (List.mem_append_right _
      (List.mem_cons_of_mem _ (List.mem_append_right _ (List.mem_cons_self _ _))))
  have hcnm : ',' ∉ y ++ '.' :: z := by
    intro m
    rcases List.mem_append.mp m with h | h
    · exact not_mem_of_digits y ',' hdy (by decide) h
    · rcases List.mem_cons.mp h with h2 | h2
      · exact absurd h2 (by decide)
      · exact not_mem_of_digits z ',' hdz (by decide) h2
  have hcomma : lastIdxOf (x ++ ',' :: (y ++ '.' :: z)) ',' = (x.length : Int) :=
    lastIdxOf_last ',' x (y ++ '.' :: z) hcnm
  have hdnm : '.' ∉ z := not_mem_of_digits z '.' hdz (by decide)
  have hdotl : lastIdxOf (x ++ ',' :: (y ++ '.' :: z)) '.' =
      ((x ++ ',' :: y).length : Int) := by
    rw [show x ++ ',' :: (y ++ '.' :: z) = (x ++ ',' :: y) ++ '.' :: z from by simp]
    exact lastIdxOf_last '.' (x ++ ',' :: y) z hdnm
  have hngt : ¬(lastIdxOf (x ++ ',' :: (y ++ '.' :: z)) ',' >
      lastIdxOf (x ++ ',' :: (y ++ '.' :: z)) '.') := by
    rw [hcomma, hdotl]
    simp only [List.length_append, List.length_cons]
    omega
  have hflt : (x ++ ',' :: (y ++ '.' :: z)).filter (fun c => c ≠ ',') =
      (x ++ y) ++ '.' :: z := by
    rw [filter_mid _ x ',' (y ++ '.' :: z)
      (fun c hc => decide_eq_true (ne_of_digit c ',' (hdx c hc) (by decide)))
      (by decide)
      (fun c hc => by
        rcases List.mem_append.mp hc with h | h
        · exact decide_eq_true (ne_of_digit c ',' (hdy c h) (by decide))
        · rcases List.mem_cons.mp h with h2 | h2
          · subst h2; decide
          · exact decide_eq_true (ne_of_digit c ',' (hdz c h2) (by decide)))]
    rw [List.append_assoc]
  unfold separatorValue
  rw [hdotc]
  rw [if_neg (by simp)]
  rw [if_neg hngt]
  rw [hflt]
  unfold floatOrZero jsParseFloat
  rw [show (String.mk ((x ++ y) ++ '.' :: z)).data = (x ++ y) ++ '.' :: z from rfl]
  rw [jsParseFloatChars_dot (x ++ y) z hxy hdxy hdz]
  rfl

/-- The AliExpress keep-filter retains every digit, dot and comma. -/
theorem keep_sep_filter (L : List Char)
    (h : ∀ c ∈ L, c.isDigit = true ∨ c = '.' ∨ c = ',') :
    L.filter (fun c => c.isDigit || c = '.' || c = ',') = L := by
  apply filter_all_true
  intro c hc
  rcases h c hc with hd | rfl | rfl
  · simp [hd]
  · decide
  · decide

/-- Digits with one interposed separator are all kept by the keep-filter
character class. -/
theorem sep_class_append (x : List Char) (b : Char) (y : List Char)
    (hdx : ∀ c ∈ x, c.isDigit = true) (hb : b = '.' ∨ b = ',')
    (hy : ∀ c ∈ y, c.isDigit = true ∨ c = '.' ∨ c = ',') :
    ∀ c ∈ x ++ b :: y, c.isDigit = true ∨ c = '.' ∨ c = ',' := by
  intro c hc
  rcases List.mem_append.mp hc with h | h
  · exact Or.inl (hdx c h)
  · rcases List.mem_cons.mp h with h2 | h2
    · subst h2
      rcases hb with rfl | rfl
      · exact Or.inr (Or.inl rfl)
      · exact Or.inr (Or.inr rfl)
    · exact hy c h2

/-- AliExpress parsePrice, shape 1: digits, one comma, digits — the comma
is the decimal point. -/
theorem ali_price_comma_only (x y : List Char) (hx : x ≠ [])
    (hdx : ∀ c ∈ x, c.isDigit = true) (hdy : ∀ c ∈ y, c.isDigit = true) :
    Aliexpress.parsePrice (String.mk (x ++ ',' :: y)) =
      (digitsToNat x : ℚ) + (digitsToNat y : ℚ) / (10 : ℚ) ^ y.length := by
  unfold Aliexpress.parsePrice
  rw [if_neg (stringMk_append_cons_ne x ',' y hx)]
  rw [show (String.mk (x ++ ',' :: y)).data = x ++ ',' :: y from rfl]
  rw [keep_sep_filter _ (sep_class_append x ',' y hdx (Or.inr rfl)
    (fun c hc => Or.inl (hdy c hc)))]
  exact separatorValue_comma_only x y hx hdx hdy

/-- AliExpress parsePrice, shape 2: the comma is right of the dot, so the
comma is the decimal point and the dot is removed as grouping. -/
theorem ali_price_comma_last (x y z : List Char) (hx : x ≠ [])
    (hdx : ∀ c ∈ x, c.isDigit = true) (hdy : ∀ c ∈ y, c.isDigit = true)
    (hdz : ∀ c ∈ z, c.isDigit = true) :
    Aliexpress.parsePrice (String.mk (x ++ '.' :: (y ++ ',' :: z))) =
      (digitsToNat (x ++ y) : ℚ) + (digitsToNat z : ℚ) / (10 : ℚ) ^ z.length := by
  unfold Aliexpress.parsePrice
  rw [if_neg (stringMk_append_cons_ne x '.' (y ++ ',' :: z) hx)]
  rw [show (String.mk (x ++ '.' :: (y ++ ',' :: z))).data =
    x ++ '.' :: (y ++ ',' :: z) from rfl]
  rw [keep_sep_filter _ (sep_class_append x '.' (y ++ ',' :: z) hdx (Or.inl rfl)
    (sep_class_append y ',' z hdy (Or.inr rfl) (fun c hc => Or.inl (hdz c hc))))]
  exact separatorValue_comma_last x y z hx hdx hdy hdz

/-- AliExpress parsePrice, shape 3: the dot is right of the comma, so the
dot is the decimal point and the comma is removed as grouping. -/
theorem ali_price_dot_last (x y z : List Char) (hx : x ≠ [])
    (hdx : ∀ c ∈ x, c.isDigit = true) (hdy : ∀ c ∈ y, c.isDigit = true)
    (hdz : ∀ c ∈ z, c.isDigit = true) :
    Aliexpress.parsePrice (String.mk (x ++ ',' :: (y ++ '.' :: z))) =
      (digitsToNat (x ++ y) : ℚ) + (digitsToNat z : ℚ) / (10 : ℚ) ^ z.length := by
  unfold Aliexpress.parsePrice
  rw [if_neg (stringMk_append_cons_ne x ',' (y ++ '.' :: z) hx)]
  rw [show (String.mk (x ++ ',' :: (y ++ '.' :: z))).data =
    x ++ ',' :: (y ++ '.' :: z) from rfl]
  rw [keep_sep_filter _ (sep_class_append x ',' (y ++ '.' :: z) hdx (Or.inr rfl)
    (sep_class_append y '.' z hdy (Or.inl rfl) (fun c hc => Or.inl (hdz c hc))))]
  exact separatorValue_dot_last x y z hx hdx hdy hdz

/-- Amazon parsePrice on digits with one comma: every comma is stripped
as grouping, so the digits concatenate to an integer. -/
theorem amazon_price_comma (x y : List Char) (hx : x ≠ [])
    (hdx : ∀ c ∈ x, c.isDigit = true) (hdy : ∀ c ∈ y, c.isDigit = true) :
    Amazon.parsePrice (some (String.mk (x ++ ',' :: y))) =
      (digitsToNat (x ++ y) : ℚ) := by
  have hxy : x ++ y ≠ [] := fun h => hx (List.append_eq_nil.mp h).1
  have hdxy : ∀ c ∈ x ++ y, c.isDigit = true := by
    intro c hc
    rcases List.mem_append.mp hc with h | h
    · exact hdx c h
    · exact hdy c h
  have hq : ∀ c ∈ x ++ ',' :: y, Amazon.isQuoteChar c = false := by
    intro c hc
    rcases List.mem_append.mp hc with h | h
    · exact digit_not_quote c (hdx c h)
    · rcases List.mem_cons.mp h with h2 | h2
      · subst h2; decide
      · exact digit_not_quote c (hdy c h2)
  show (if String.mk (x ++ ',' :: y) = "" then (0 : ℚ)
    else (jsParseFloatChars
      ((Amazon.stripEdgeQuotes (String.mk (x ++ ',' :: y)).data).filter
        (fun c => c ≠ ','))).getD 0) = (digitsToNat (x ++ y) : ℚ)
  rw [if_neg (stringMk_append_cons_ne x ',' y hx)]
  rw [show (String.mk (x ++ ',' :: y)).data = x ++ ',' :: y from rfl]
  rw [stripEdgeQuotes_id _ hq]
  rw [filter_mid _ x ',' y
    (fun c hc => decide_eq_true (ne_of_digit c ',' (hdx c hc) (by decide)))
    (by decide)
    (fun c hc => decide_eq_true (ne_of_digit c ',' (hdy c hc) (by decide)))]
  rw [jsParseFloatChars_all (x ++ y) hxy hdxy]
  rfl

/-- Claim C8 (amended): the AliExpress money parser follows the separator
rules — with only a comma among separators the comma is the decimal point,
and with both separators the right-most one is the decimal separator while
every occurrence of the other is removed as grouping (so "1.129,46" parses
to 1129.46 and "129,46" to 129.46); but the Amazon money parser does not —
it unconditionally strips every comma as thousands grouping, so a
comma-only amount is read as an integer ("129,46" parses to 12946). -/
theorem claim_C8 (x y z : List Char)
    (hx : x ≠ []) (hdx : ∀ c ∈ x, c.isDigit = true)
    (hdy : ∀ c ∈ y, c.isDigit = true) (hdz : ∀ c ∈ z, c.isDigit = true) :
    (Aliexpress.parsePrice (String.mk (x ++ ',' :: y)) =
      (digitsToNat x : ℚ) + (digitsToNat y : ℚ) / (10 : ℚ) ^ y.length) ∧
    (Aliexpress.parsePrice (String.mk (x ++ '.' :: (y ++ ',' :: z))) =
      (digitsToNat (x ++ y) : ℚ) + (digitsToNat z : ℚ) / (10 : ℚ) ^ z.length) ∧
    (Aliexpress.parsePrice (String.mk (x ++ ',' :: (y ++ '.' :: z))) =
      (digitsToNat (x ++ y) : ℚ) + (digitsToNat z : ℚ) / (10 : ℚ) ^ z.length) ∧
    (Amazon.parsePrice (some (String.mk (x ++ ',' :: y))) =
      (digitsToNat (x ++ y) : ℚ)) ∧
    Aliexpress.parsePrice "1.129,46" = 1129 + 46 / 100 ∧
    Aliexpress.parsePrice "129,46" = 129 + 46 / 100 ∧
    Amazon.parsePrice (some "129,46") = 12946 := by
  refine ⟨ali_price_comma_only x y hx hdx hdy,
    ali_price_comma_last x y z hx hdx hdy hdz,
    ali_price_dot_last x y z hx hdx hdy hdz,
    amazon_price_comma x y hx hdx hdy, ?_, ?_, ?_⟩
  · have h := ali_price_comma_last ['1'] ['1', '2', '9'] ['4', '6']
      (by decide) (by decide) (by decide) (by decide)
    rw [show String.mk (['1'] ++ '.' :: (['1', '2', '9'] ++ ',' :: ['4', '6'])) =
      "1.129,46" from rfl] at h
    rw [h]
    rw [show digitsToNat (['1'] ++ ['1', '2', '9']) = 1129 from by decide]
    rw [show digitsToNat ['4', '6'] = 46 from by decide]
    norm_num
  · have h := ali_price_comma_only ['1', '2', '9'] ['4', '6']
      (by decide) (by decide) (by decide)
    rw [show String.mk (['1', '2', '9'] ++ ',' :: ['4', '6']) = "129,46" from rfl] at h
    rw [h]
    rw [show digitsToNat ['1', '2', '9'] = 129 from by decide]
    rw [show digitsToNat ['4', '6'] = 46 from by decide]
    norm_num
  · have h := amazon_price_comma ['1', '2', '9'] ['4', '6']
      (by decide) (by decide) (by decide)
    rw [show String.mk (['1', '2', '9'] ++ ',' :: ['4', '6']) = "129,46" from rfl] at h
    rw [h]
    rw [show digitsToNat (['1', '2', '9'] ++ ['4', '6']) = 12946 from by decide]
    norm_num

/-- Witness for claim C8 at digits 1 / 29 / 46: all four general separator
conclusions hold at these concrete digit lists, beside the closed
examples. -/
theorem claim_C8_witness :
    (['1'] : List Char) ≠ [] ∧
    (∀ c ∈ (['1'] : List Char), c.isDigit = true) ∧
    (∀ c ∈ (['2', '9'] : List Char), c.isDigit = true) ∧
    (∀ c ∈ (['4', '6'] : List Char), c.isDigit = true) ∧
    ((Aliexpress.parsePrice (String.mk (['1'] ++ ',' :: ['2', '9'])) =
      (digitsToNat ['1'] : ℚ) +
        (digitsToNat ['2', '9'] : ℚ) / (10 : ℚ) ^ (['2', '9'] : List Char).length) ∧
    (Aliexpress.parsePrice (String.mk (['1'] ++ '.' :: (['2', '9'] ++ ',' :: ['4', '6']))) =
      (digitsToNat (['1'] ++ ['2', '9']) : ℚ) +
        (digitsToNat ['4', '6'] : ℚ) / (10 : ℚ) ^ (['4', '6'] : List Char).length) ∧
    (Aliexpress.parsePrice (String.mk (['1'] ++ ',' :: (['2', '9'] ++ '.' :: ['4', '6']))) =
      (digitsToNat (['1'] ++ ['2', '9']) : ℚ) +
        (digitsToNat ['4', '6'] : ℚ) / (10 : ℚ) ^ (['4', '6'] : List Char).length) ∧
    (Amazon.parsePrice (some (String.mk (['1'] ++ ',' :: ['2', '9']))) =
      (digitsToNat (['1'] ++ ['2', '9']) : ℚ)) ∧
    Aliexpress.parsePrice "1.129,46" = 1129 + 46 / 100 ∧
    Aliexpress.parsePrice "129,46" = 129 + 46 / 100 ∧
    Amazon.parsePrice (some "129,46") = 12946) :=
  ⟨by decide, by decide, by decide, by decide,
   claim_C8 ['1'] ['2', '9'] ['4', '6'] (by decide) (by decide) (by decide) (by decide)⟩

/-- Claim C8 counterexample: the Amazon money parser never treats a comma
as the decimal separator — it strips every comma as grouping even when
only commas appear among separators — so "129,46" parses to 12946 rather
than 129.46, refuting the comma-as-decimal rule for this parser. -/
theorem claim_C8_cex :
    Amazon.parsePrice (some "129,46") = 12946 ∧
    ¬ Amazon.parsePrice (some "129,46") = 129 + 46 / 100 := by
  have h := amazon_price_comma ['1', '2', '9'] ['4', '6']
    (by decide) (by decide) (by decide)
  rw [show String.mk (['1', '2', '9'] ++ ',' :: ['4', '6']) = "129,46" from rfl] at h
  rw [h]
  rw [show digitsToNat (['1', '2', '9'] ++ ['4', '6']) = 12946 from by decide]
  norm_num

/-- Claim C5 (confirmed): when a candidate matches an existing record and
the four identity fields are identical, the engine writes only the
optional fields currently absent on the existing record — its id, core
fields, importedAt and every populated optional field (including a
categoryName differing from the candidate's) stay unchanged, an absent
optional field supplied by the candidate is copied — and the candidate is
counted enriched if anything was copied, else skipped. -/
theorem claim_C5 (st : AddState) (p existing : Purchase)
    (hk : st.keyMap (dedupKey p) = some existing.id)
    (hfind : st.store.find? (fun r => r.id == existing.id) = some existing)
    (hid : identicalCore existing p) :
    ((applyEnrichPatch (enrichPatch existing p) existing).id = existing.id ∧
     (applyEnrichPatch (enrichPatch existing p) existing).providerId = existing.providerId ∧
     (applyEnrichPatch (enrichPatch existing p) existing).providerItemId = existing.providerItemId ∧
     (applyEnrichPatch (enrichPatch existing p) existing).title = existing.title ∧
     (applyEnrichPatch (enrichPatch existing p) existing).price = existing.price ∧
     (applyEnrichPatch (enrichPatch existing p) existing).currency = existing.currency ∧
     (applyEnrichPatch (enrichPatch existing p) existing).purchaseDate = existing.purchaseDate ∧
     (applyEnrichPatch (enrichPatch existing p) existing).importedAt = existing.importedAt) ∧
    (strTruthy existing.imageUrl = true →
      (applyEnrichPatch (enrichPatch existing p) existing).imageUrl = existing.imageUrl) ∧
    (strTruthy existing.categoryName = true →
      (applyEnrichPatch (enrichPatch existing p) existing).categoryName = existing.categoryName) ∧
    (strTruthy existing.originalUrl = true →
      (applyEnrichPatch (enrichPatch existing p) existing).originalUrl = existing.originalUrl) ∧
    (existing.rawData.isSome = true →
      (applyEnrichPatch (enrichPatch existing p) existing).rawData = existing.rawData) ∧
    (strTruthy existing.imageUrl = false → strTruthy p.imageUrl = true →
      (applyEnrichPatch (enrichPatch existing p) existing).imageUrl = p.imageUrl) ∧
    (strTruthy existing.categoryName = false → strTruthy p.categoryName = true →
      (applyEnrichPatch (enrichPatch existing p) existing).categoryName = p.categoryName) ∧
    (strTruthy existing.originalUrl = false → strTruthy p.originalUrl = true →
      (applyEnrichPatch (enrichPatch existing p) existing).originalUrl = p.originalUrl) ∧
    (existing.rawData.isNone = true → p.rawData.isSome = true →
      (applyEnrichPatch (enrichPatch existing p) existing).rawData = p.rawData) ∧
    (patchNonempty (enrichPatch existing p) = true →
      processOne st p = { st with
        store := updateById st.store existing.id (applyEnrichPatch (enrichPatch existing p)),
        enriched := st.enriched + 1 }) ∧
    (patchNonempty (enrichPatch existing p) = false →
      processOne st p = { st with skipped := st.skipped + 1 }) := by
  refine ⟨⟨rfl, rfl, rfl, rfl, rfl, rfl, rfl, rfl⟩, ?_, ?_, ?_, ?_, ?_, ?_, ?_, ?_, ?_, ?_⟩
  · intro h
    simp [applyEnrichPatch, enrichPatch, h]
  · intro h
    simp [applyEnrichPatch, enrichPatch, h]
  · intro h
    simp [applyEnrichPatch, enrichPatch, h]
  · intro h
    cases he : existing.rawData with
    | none => rw [he] at h; cases h
    | some v => simp [applyEnrichPatch, enrichPatch, he]
  · intro h1 h2
    cases hp : p.imageUrl with
    | none => rw [hp] at h2; cases h2
    | some s =>
      rw [hp] at h2
      simp [applyEnrichPatch, enrichPatch, h1, h2, hp]
  · intro h1 h2
    cases hp : p.categoryName with
    | none => rw [hp] at h2; cases h2
    | some s =>
      rw [hp] at h2
      simp [applyEnrichPatch, enrichPatch, h1, h2, hp]
  · intro h1 h2
    cases hp : p.originalUrl with
    | none => rw [hp] at h2; cases h2
    | some s =>
      rw [hp] at h2
      simp [applyEnrichPatch, enrichPatch, h1, h2, hp]
  · intro h1 h2
    simp [applyEnrichPatch, enrichPatch, h1, h2]
  · intro hne
    simp [processOne, hk, hfind, hid, hne]
  · intro hne
    simp [processOne, hk, hfind, hid, hne]

/-- Witness for claim C5 at the concrete enrichment inputs: the key is
registered, the record is found, the identity fields agree, and all
frame/enrichment conclusions hold. -/
theorem claim_C5_witness :
    (c5State.keyMap (dedupKey c5Candidate) = some c5Existing.id) ∧
    (c5State.store.find? (fun r => r.id == c5Existing.id) = some c5Existing) ∧
    identicalCore c5Existing c5Candidate ∧
(    ((applyEnrichPatch (enrichPatch c5Existing c5Candidate) c5Existing).id = c5Existing.id ∧
     (applyEnrichPatch (enrichPatch c5Existing c5Candidate) c5Existing).providerId = c5Existing.providerId ∧
     (applyEnrichPatch (enrichPatch c5Existing c5Candidate) c5Existing).providerItemId = c5Existing.providerItemId ∧
     (applyEnrichPatch (enrichPatch c5Existing c5Candidate) c5Existing).title = c5Existing.title ∧
     (applyEnrichPatch (enrichPatch c5Existing c5Candidate) c5Existing).price = c5Existing.price ∧
     (applyEnrichPatch (enrichPatch c5Existing c5Candidate) c5Existing).currency = c5Existing.currency ∧
     (applyEnrichPatch (enrichPatch c5Existing c5Candidate) c5Existing).purchaseDate = c5Existing.purchaseDate ∧
     (applyEnrichPatch (enrichPatch c5Existing c5Candidate) c5Existing).importedAt = c5Existing.importedAt) ∧
    (strTruthy c5Existing.imageUrl = true →
      (applyEnrichPatch (enrichPatch c5Existing c5Candidate) c5Existing).imageUrl = c5Existing.imageUrl) ∧
    (strTruthy c5Existing.categoryName = true →
      (applyEnrichPatch (enrichPatch c5Existing c5Candidate) c5Existing).categoryName = c5Existing.categoryName) ∧
    (strTruthy c5Existing.originalUrl = true →
      (applyEnrichPatch (enrichPatch c5Existing c5Candidate) c5Existing).originalUrl = c5Existing.originalUrl) ∧
    (c5Existing.rawData.isSome = true →
      (applyEnrichPatch (enrichPatch c5Existing c5Candidate) c5Existing).rawData = c5Existing.rawData) ∧
    (strTruthy c5Existing.imageUrl = false → strTruthy c5Candidate.imageUrl = true →
      (applyEnrichPatch (enrichPatch c5Existing c5Candidate) c5Existing).imageUrl = c5Candidate.imageUrl) ∧
    (strTruthy c5Existing.categoryName = false → strTruthy c5Candidate.categoryName = true →
      (applyEnrichPatch (enrichPatch c5Existing c5Candidate) c5Existing).categoryName = c5Candidate.categoryName) ∧
    (strTruthy c5Existing.originalUrl = false → strTruthy c5Candidate.originalUrl = true →
      (applyEnrichPatch (enrichPatch c5Existing c5Candidate) c5Existing).originalUrl = c5Candidate.originalUrl) ∧
    (c5Existing.rawData.isNone = true → c5Candidate.rawData.isSome = true →
      (applyEnrichPatch (enrichPatch c5Existing c5Candidate) c5Existing).rawData = c5Candidate.rawData) ∧
    (patchNonempty (enrichPatch c5Existing c5Candidate) = true →
      processOne c5State c5Candidate = { c5State with
        store := updateById c5State.store c5Existing.id (applyEnrichPatch (enrichPatch c5Existing c5Candidate)),
        enriched := c5State.enriched + 1 }) ∧
    (patchNonempty (enrichPatch c5Existing c5Candidate) = false →
      processOne c5State c5Candidate = { c5State with skipped := c5State.skipped + 1 })) :=
  ⟨by with_unfolding_all rfl, by with_unfolding_all rfl, ⟨rfl, rfl, rfl, rfl⟩,
   claim_C5 c5State c5Candidate c5Existing (by with_unfolding_all rfl)
     (by with_unfolding_all rfl) ⟨rfl, rfl, rfl, rfl⟩⟩

/-- Claim C10 counterexample: clearProviderPurchases deletes the only
purchase of provider p, yet the tag assignment referencing the deleted
purchase id x survives, refuting the claimed cascade for this deletion
operation. -/
theorem claim_C10_cex :
    (clearProviderPurchases
        ⟨[⟨"x", "p", "1", "T", 1, "USD", "D", none, none, none, none, "I"⟩],
         [⟨"a1", "x", "g"⟩], []⟩ "p").purchases = [] ∧
    (⟨"a1", "x", "g"⟩ : TagAssignment) ∈
      (clearProviderPurchases
        ⟨[⟨"x", "p", "1", "T", 1, "USD", "D", none, none, none, none, "I"⟩],
         [⟨"a1", "x", "g"⟩], []⟩ "p").tagAssignments := by
  constructor
  · rfl
  · simp [clearProviderPurchases]

/-! ## Reconciliation invariants (claim C1): support lemmas -/

/-- The registration fold over an empty provider slice is the identity. -/
theorem buildExistingMap_nil_aux (pids : List String) (m : KeyMap) :
    pids.foldl
      (fun m2 pid =>
        (([] : List Purchase).filter (fun e => e.providerId = pid)).foldl
          (fun m3 e => fun k => if k = dedupKey e then some e.id else m3 k) m2)
      m = m := by
  induction pids generalizing m with
  | nil => rfl
  | cons a t ih => exact ih m

/-- buildExistingMap over an empty store registers nothing. -/
theorem buildExistingMap_nil (pids : List String) (k : String) :
    buildExistingMap [] pids k = none := by
  exact congrFun (buildExistingMap_nil_aux pids (fun _ => none)) k

/-- The inner registration fold never unregisters a key. -/
theorem innerFold_mono (l : List Purchase) (m : KeyMap) (k : String)
    (h : m k ≠ none) :
    l.foldl (fun m3 e => fun k2 => if k2 = dedupKey e then some e.id else m3 k2) m k ≠
      none := by
  induction l generalizing m with
  | nil => exact h
  | cons a t ih =>
    refine ih _ ?_
    show (if k = dedupKey a then some a.id else m k) ≠ none
    by_cases he : k = dedupKey a
    · rw [if_pos he]; simp
    · rw [if_neg he]; exact h

/-- The inner registration fold registers the key of every element. -/
theorem innerFold_hit (l : List Purchase) (e : Purchase) (he : e ∈ l) (m : KeyMap) :
    l.foldl (fun m3 e2 => fun k2 => if k2 = dedupKey e2 then some e2.id else m3 k2) m
      (dedupKey e) ≠ none := by
  induction he generalizing m with
  | head t =>
    rw [List.foldl_cons]
    refine innerFold_mono t _ _ ?_
    show (if dedupKey e = dedupKey e then some e.id else m (dedupKey e)) ≠ none
    rw [if_pos rfl]
    simp
  | tail b hmem ih =>
    rw [List.foldl_cons]
    exact ih _

/-- The outer per-provider fold never unregisters a key. -/
theorem outerFold_mono (pids : List String) (store : List Purchase) (m : KeyMap)
    (k : String) (h : m k ≠ none) :
    pids.foldl
      (fun m2 pid =>
        (store.filter (fun e => e.providerId = pid)).foldl
          (fun m3 e => fun k2 => if k2 = dedupKey e then some e.id else m3 k2) m2)
      m k ≠ none := by
  induction pids generalizing m with
  | nil => exact h
  | cons a t ih => exact ih _ (innerFold_mono _ _ _ h)

/-- The outer fold registers the key of every stored record whose provider
is among the batch providers. -/
theorem outerFold_hit (pids : List String) (store : List Purchase) (e : Purchase)
    (he : e ∈ store) (hp : e.providerId ∈ pids) (m : KeyMap) :
    pids.foldl
      (fun m2 pid =>
        (store.filter (fun e2 => e2.providerId = pid)).foldl
          (fun m3 e2 => fun k2 => if k2 = dedupKey e2 then some e2.id else m3 k2) m2)
      m (dedupKey e) ≠ none := by
  induction hp generalizing m with
  | head t =>
    rw [List.foldl_cons]
    refine outerFold_mono t store _ _ ?_
    exact innerFold_hit _ e (List.mem_filter.mpr ⟨he, by simp⟩) _
  | tail b hmem ih =>
    rw [List.foldl_cons]
    exact ih _

/-- Completeness of the in-memory index: every stored record of a batch
provider has its dedup key registered. -/
theorem buildExistingMap_complete (store : List Purchase) (pids : List String)
    (e : Purchase) (he : e ∈ store) (hp : e.providerId ∈ pids) :
    buildExistingMap store pids (dedupKey e) ≠ none := by
  unfold buildExistingMap
  exact outerFold_hit pids store e he hp _

/-- updateById preserves any count over a field-preserving update. -/
theorem countP_updateById (store : List Purchase) (id : String)
    (f : Purchase → Purchase) (qq : Purchase → Bool) (hf : ∀ r, qq (f r) = qq r) :
    (updateById store id f).countP qq = store.countP qq := by
  induction store with
  | nil => rfl
  | cons a t ih =>
    show (((if a.id = id then f a else a)) :: updateById t id f).countP qq = _
    rw [List.countP_cons, List.countP_cons, ih]
    by_cases hc : a.id = id
    · rw [if_pos hc, hf a]
    · rw [if_neg hc]

/-- Every record after updateById is an old record or the update of one. -/
theorem mem_updateById (store : List Purchase) (id : String)
    (f : Purchase → Purchase) (r : Purchase) (h : r ∈ updateById store id f) :
    ∃ e ∈ store, r = e ∨ r = f e := by
  unfold updateById at h
  obtain ⟨e, he, hfe⟩ := List.mem_map.mp h
  by_cases hc : e.id = id
  · rw [if_pos hc] at hfe
    exact ⟨e, he, Or.inr hfe.symm⟩
  · rw [if_neg hc] at hfe
    exact ⟨e, he, Or.inl hfe.symm⟩

/-- The accumulator of the distinct-provider fold only grows. -/
theorem mem_foldl_uniq_mono (ps : List Purchase) (acc : List String) (x : String)
    (h : x ∈ acc) :
    x ∈ ps.foldl (fun a q => if q.providerId ∈ a then a else a ++ [q.providerId]) acc := by
  induction ps generalizing acc with
  | nil => exact h
  | cons b t ih =>
    rw [List.foldl_cons]
    apply ih
    show x ∈ (if b.providerId ∈ acc then acc else acc ++ [b.providerId])
    by_cases hb : b.providerId ∈ acc
    · rw [if_pos hb]; exact h
    · rw [if_neg hb]; exact List.mem_append_left _ h

/-- The distinct-provider fold collects the provider of every candidate. -/
theorem mem_foldl_uniq (ps : List Purchase) (p : Purchase) (hp : p ∈ ps)
    (acc : List String) :
    p.providerId ∈
      ps.foldl (fun a q => if q.providerId ∈ a then a else a ++ [q.providerId]) acc := by
  induction hp generalizing acc with
  | head t =>
    rw [List.foldl_cons]
    apply mem_foldl_uniq_mono
    show p.providerId ∈ (if p.providerId ∈ acc then acc else acc ++ [p.providerId])
    by_cases hb : p.providerId ∈ acc
    · rw [if_pos hb]; exact hb
    · rw [if_neg hb]
      exact List.mem_append_right _ (List.mem_singleton.mpr rfl)
  | tail b hmem ih =>
    rw [List.foldl_cons]
    exact ih _

/-- Every candidate provider is among the batch provider ids. -/
theorem mem_uniqueProviderIds (ps : List Purchase) (p : Purchase) (hp : p ∈ ps) :
    p.providerId ∈ uniqueProviderIds ps := by
  unfold uniqueProviderIds
  exact mem_foldl_uniq ps p hp []

/-- One loop iteration preserves pair-uniqueness of the store and
completeness of the in-memory index for batch providers. -/
theorem processOne_preserves (pids : List String) (st : AddState) (p : Purchase)
    (hp : p.providerId ∈ pids)
    (hcount : ∀ pid iid, st.store.countP
      (fun e => e.providerId = pid ∧ e.providerItemId = iid) ≤ 1)
    (hcomp : ∀ e ∈ st.store, e.providerId ∈ pids → st.keyMap (dedupKey e) ≠ none) :
    (∀ pid iid, (processOne st p).store.countP
      (fun e => e.providerId = pid ∧ e.providerItemId = iid) ≤ 1) ∧
    (∀ e ∈ (processOne st p).store, e.providerId ∈ pids →
      (processOne st p).keyMap (dedupKey e) ≠ none) := by
  cases hm : st.keyMap (dedupKey p) with
  | some existingId =>
    have hupd : ∀ (f : Purchase → Purchase),
        (∀ r, (f r).providerId = r.providerId ∧ (f r).providerItemId = r.providerItemId) →
        (∀ pid iid, (updateById st.store existingId f).countP
          (fun e => e.providerId = pid ∧ e.providerItemId = iid) ≤ 1) ∧
        (∀ e ∈ updateById st.store existingId f, e.providerId ∈ pids →
          st.keyMap (dedupKey e) ≠ none) := by
      intro f hf
      constructor
      · intro pid iid
        rw [countP_updateById _ _ _ _ (fun r => by
          have h1 := (hf r).1
          have h2 := (hf r).2
          simp [h1, h2])]
        exact hcount pid iid
      · intro e hein hprov
        obtain ⟨e0, he0, heq⟩ := mem_updateById _ _ _ _ hein
        have hkey : dedupKey e = dedupKey e0 := by
          cases heq with
          | inl h => rw [h]
          | inr h =>
            rw [h]
            unfold dedupKey
            rw [(hf e0).1, (hf e0).2]
        have hprov0 : e0.providerId ∈ pids := by
          cases heq with
          | inl h => rw [h] at hprov; exact hprov
          | inr h =>
            rw [h] at hprov
            rw [(hf e0).1] at hprov
            exact hprov
        rw [hkey]
        exact hcomp e0 he0 hprov0
    cases hfind : st.store.find? (fun r => r.id == existingId) with
    | some existing =>
      by_cases hic : identicalCore existing p
      · by_cases hpt : patchNonempty (enrichPatch existing p) = true
        · have hres : processOne st p = { st with
              store := updateById st.store existingId (applyEnrichPatch (enrichPatch existing p)),
              enriched := st.enriched + 1 } := by
            simp [processOne, hm, hfind, hic, hpt]
          rw [hres]
          exact hupd _ (fun r => ⟨rfl, rfl⟩)
        · have hres : processOne st p = { st with skipped := st.skipped + 1 } := by
            simp [processOne, hm, hfind, hic, hpt]
          rw [hres]
          exact ⟨hcount, hcomp⟩
      · have hres : processOne st p = { st with
            store := updateById st.store existingId (fun r => updatedPurchase r p),
            updated := st.updated + 1 } := by
          simp [processOne, hm, hfind, hic]
        rw [hres]
        exact hupd _ (fun r => ⟨rfl, rfl⟩)
    | none =>
      have hres : processOne st p = { st with
          store := updateById st.store existingId (fun r => updatedPurchase r p),
          updated := st.updated + 1 } := by
        simp [processOne, hm, hfind]
      rw [hres]
      exact hupd _ (fun r => ⟨rfl, rfl⟩)
  | none =>
    have hres : processOne st p = { st with
        store := st.store ++ [p],
        keyMap := fun k2 => if k2 = dedupKey p then some p.id else st.keyMap k2,
        added := st.added + 1 } := by
      simp [processOne, hm]
    rw [hres]
    constructor
    · intro pid iid
      show (st.store ++ [p]).countP _ ≤ 1
      rw [List.countP_append]
      by_cases hmatch : p.providerId = pid ∧ p.providerItemId = iid
      · have hz : st.store.countP
            (fun e => e.providerId = pid ∧ e.providerItemId = iid) = 0 := by
          rw [List.countP_eq_zero]
          intro e hein hpred
          have hpe : e.providerId = pid ∧ e.providerItemId = iid := of_decide_eq_true hpred
          have hkey : dedupKey e = dedupKey p := by
            unfold dedupKey
            rw [hpe.1, hpe.2, hmatch.1, hmatch.2]
          have hco := hcomp e hein (by rw [hpe.1, ← hmatch.1]; exact hp)
          rw [hkey] at hco
          exact hco hm
        rw [hz]
        rw [List.countP_cons, List.countP_nil, decide_eq_true hmatch]
        simp
      · have h1 : ([p].countP (fun e => e.providerId = pid ∧ e.providerItemId = iid)) = 0 := by
          rw [List.countP_cons, List.countP_nil, decide_eq_false hmatch]
          simp
        rw [h1]
        simpa using hcount pid iid
    · intro e hein hprov
      show (if dedupKey e = dedupKey p then some p.id else st.keyMap (dedupKey e)) ≠ none
      by_cases hk2 : dedupKey e = dedupKey p
      · rw [if_pos hk2]; simp
      · rw [if_neg hk2]
        rcases List.mem_append.mp hein with h | h
        · exact hcomp e h hprov
        · rw [List.mem_singleton] at h
          subst h
          exact absurd rfl hk2

/-- The whole loop preserves pair-uniqueness of the store. -/
theorem foldl_processOne_preserves (pids : List String) (ps : List Purchase)
    (st : AddState)
    (hps : ∀ p ∈ ps, p.providerId ∈ pids)
    (hcount : ∀ pid iid, st.store.countP
      (fun e => e.providerId = pid ∧ e.providerItemId = iid) ≤ 1)
    (hcomp : ∀ e ∈ st.store, e.providerId ∈ pids → st.keyMap (dedupKey e) ≠ none) :
    ∀ pid iid, (ps.foldl processOne st).store.countP
      (fun e => e.providerId = pid ∧ e.providerItemId = iid) ≤ 1 := by
  induction ps generalizing st with
  | nil => exact hcount
  | cons a t ih =>
    rw [List.foldl_cons]
    have h := processOne_preserves pids st a (hps a (List.mem_cons_self _ _)) hcount hcomp
    exact ih _ (fun p2 hp2 => hps p2 (List.mem_cons_of_mem _ hp2)) h.1 h.2

/-- Claim C1 (confirmed): starting from a store with at most one record
per (providerId, providerItemId) pair, after addPurchases completes the
store still contains at most one record per pair — an unmatched candidate
is inserted with its key registered immediately, so a later same-key
candidate updates rather than duplicates; and on an empty store, a batch
of two candidates sharing the pair but differing in identity fields ends
as a single record carrying the later candidate's identity fields, with
added = 1 and updated = 1. -/
theorem claim_C1 (store ps : List Purchase) (pid iid : String) (p q : Purchase)
    (huniq : ∀ pid2 iid2, store.countP
      (fun e => e.providerId = pid2 ∧ e.providerItemId = iid2) ≤ 1)
    (hpq1 : p.providerId = q.providerId) (hpq2 : p.providerItemId = q.providerItemId)
    (hdiff : ¬ identicalCore p q) :
    ((addPurchases store ps).2.countP
      (fun e => e.providerId = pid ∧ e.providerItemId = iid) ≤ 1) ∧
    ((addPurchases [] [p, q]).2 = [updatedPurchase p q] ∧
     (addPurchases [] [p, q]).1.added = 1 ∧
     (addPurchases [] [p, q]).1.updated = 1 ∧
     (updatedPurchase p q).title = q.title ∧
     (updatedPurchase p q).price = q.price ∧
     (updatedPurchase p q).currency = q.currency ∧
     (updatedPurchase p q).purchaseDate = q.purchaseDate) := by
  constructor
  · show (List.foldl processOne
      { store := store, keyMap := buildExistingMap store (uniqueProviderIds ps),
        added := 0, skipped := 0, updated := 0, enriched := 0 } ps).store.countP
      (fun e => e.providerId = pid ∧ e.providerItemId = iid) ≤ 1
    exact foldl_processOne_preserves (uniqueProviderIds ps) ps _
      (fun p2 hp2 => mem_uniqueProviderIds ps p2 hp2) huniq
      (fun e he hpe => buildExistingMap_complete store (uniqueProviderIds ps) e he hpe)
      pid iid
  · have hkeyq : dedupKey q = dedupKey p := by
      unfold dedupKey
      rw [hpq1, hpq2]
    have h0 : buildExistingMap [] (uniqueProviderIds [p, q]) (dedupKey p) = none :=
      buildExistingMap_nil _ _
    have hst1 : processOne
        { store := [], keyMap := buildExistingMap [] (uniqueProviderIds [p, q]),
          added := 0, skipped := 0, updated := 0, enriched := 0 } p =
        { store := [p],
          keyMap := fun k2 => if k2 = dedupKey p then some p.id
            else buildExistingMap [] (uniqueProviderIds [p, q]) k2,
          added := 1, skipped := 0, updated := 0, enriched := 0 } := by
      simp [processOne, h0]
    have hst2 : processOne
        { store := [p],
          keyMap := fun k2 => if k2 = dedupKey p then some p.id
            else buildExistingMap [] (uniqueProviderIds [p, q]) k2,
          added := 1, skipped := 0, updated := 0, enriched := 0 } q =
        { store := [updatedPurchase p q],
          keyMap := fun k2 => if k2 = dedupKey p then some p.id
            else buildExistingMap [] (uniqueProviderIds [p, q]) k2,
          added := 1, skipped := 0, updated := 1, enriched := 0 } := by
      simp [processOne, hkeyq, List.find?, updateById, hdiff]
    have hfold : List.foldl processOne
        { store := [], keyMap := buildExistingMap [] (uniqueProviderIds [p, q]),
          added := 0, skipped := 0, updated := 0, enriched := 0 } [p, q] =
        { store := [updatedPurchase p q],
          keyMap := fun k2 => if k2 = dedupKey p then some p.id
            else buildExistingMap [] (uniqueProviderIds [p, q]) k2,
          added := 1, skipped := 0, updated := 1, enriched := 0 } := by
      rw [List.foldl_cons, hst1, List.foldl_cons, hst2, List.foldl_nil]
    refine ⟨?_, ?_, ?_, rfl, rfl, rfl, rfl⟩
    · show (List.foldl processOne
        { store := [], keyMap := buildExistingMap [] (uniqueProviderIds [p, q]),
          added := 0, skipped := 0, updated := 0, enriched := 0 } [p, q]).store =
        [updatedPurchase p q]
      rw [hfold]
    · show (List.foldl processOne
        { store := [], keyMap := buildExistingMap [] (uniqueProviderIds [p, q]),
          added := 0, skipped := 0, updated := 0, enriched := 0 } [p, q]).added = 1
      rw [hfold]
    · show (List.foldl processOne
        { store := [], keyMap := buildExistingMap [] (uniqueProviderIds [p, q]),
          added := 0, skipped := 0, updated := 0, enriched := 0 } [p, q]).updated = 1
      rw [hfold]

/-- Witness for claim C1 at the two concrete same-pair candidates on an
empty store: the hypotheses hold, the uniqueness bound holds after the
batch, and the single surviving record carries the later fields. -/
theorem claim_C1_witness :
    (∀ pid2 iid2, ([] : List Purchase).countP
      (fun e => e.providerId = pid2 ∧ e.providerItemId = iid2) ≤ 1) ∧
    c1P.providerId = c1Q.providerId ∧
    c1P.providerItemId = c1Q.providerItemId ∧
    ¬ identicalCore c1P c1Q ∧
    (((addPurchases [] [c1P, c1Q]).2.countP
      (fun e => e.providerId = "temu" ∧ e.providerItemId = "1") ≤ 1) ∧
    ((addPurchases [] [c1P, c1Q]).2 = [updatedPurchase c1P c1Q] ∧
     (addPurchases [] [c1P, c1Q]).1.added = 1 ∧
     (addPurchases [] [c1P, c1Q]).1.updated = 1 ∧
     (updatedPurchase c1P c1Q).title = c1Q.title ∧
     (updatedPurchase c1P c1Q).price = c1Q.price ∧
     (updatedPurchase c1P c1Q).currency = c1Q.currency ∧
     (updatedPurchase c1P c1Q).purchaseDate = c1Q.purchaseDate)) :=
  ⟨fun pid2 iid2 => by simp, rfl, rfl, by with_unfolding_all decide,
   claim_C1 [] [c1P, c1Q] "temu" "1" c1P c1Q (fun pid2 iid2 => by simp) rfl rfl
     (by with_unfolding_all decide)⟩

/-! ## Decimal representation (claim C9): support lemmas -/

/-- decDigits below 10 is a single digit character. -/
theorem decDigits_lt (n : Nat) (h : n < 10) : decDigits n = [Nat.digitChar n] := by
  conv_lhs => unfold decDigits
  rw [dif_pos h]

/-- decDigits at 10 or above splits off the last digit. -/
theorem decDigits_ge (n : Nat) (h : ¬ n < 10) :
    decDigits n = decDigits (n / 10) ++ [Nat.digitChar (n % 10)] := by
  conv_lhs => unfold decDigits
  rw [dif_neg h]

/-- digitVal inverts digitChar on decimal digits. -/
theorem digitVal_digitChar (d : Nat) (h : d < 10) :
    digitVal (Nat.digitChar d) = d := by
  interval_cases d <;> rfl

/-- Decimal digit characters are never a dash. -/
theorem digitChar_ne_dash (d : Nat) (h : d < 10) : Nat.digitChar d ≠ '-' := by
  interval_cases d <;> decide

/-- digitsToNat over an appended final digit. -/
theorem digitsToNat_append_one (l : List Char) (c : Char) :
    digitsToNat (l ++ [c]) = 10 * digitsToNat l + digitVal c := by
  unfold digitsToNat
  rw [List.foldl_append]
  rfl

/-- digitsToNat recovers the number from its decimal digits. -/
theorem digitsToNat_decDigits (n : Nat) : digitsToNat (decDigits n) = n := by
  induction n using Nat.strong_induction_on with
  | _ n ih =>
    by_cases h : n < 10
    · rw [decDigits_lt n h]
      unfold digitsToNat
      simp [digitVal_digitChar n h]
    · rw [decDigits_ge n h]
      rw [digitsToNat_append_one]
      rw [ih (n / 10) (Nat.div_lt_self (by omega) (by decide))]
      rw [digitVal_digitChar (n % 10) (Nat.mod_lt _ (by decide))]
      omega

/-- decDigits is injective. -/
theorem decDigits_inj (n m : Nat) (h : decDigits n = decDigits m) : n = m := by
  have h2 := congrArg digitsToNat h
  rw [digitsToNat_decDigits, digitsToNat_decDigits] at h2
  exact h2

/-- No dash occurs among decimal digit characters. -/
theorem decDigits_no_dash (n : Nat) : ∀ c ∈ decDigits n, c ≠ '-' := by
  induction n using Nat.strong_induction_on with
  | _ n ih =>
    intro c hc
    by_cases h : n < 10
    · rw [decDigits_lt n h] at hc
      rw [List.mem_singleton] at hc
      subst hc
      exact digitChar_ne_dash n h
    · rw [decDigits_ge n h] at hc
      rcases List.mem_append.mp hc with h2 | h2
      · exact ih (n / 10) (Nat.div_lt_self (by omega) (by decide)) c h2
      · rw [List.mem_singleton] at h2
        subst h2
        exact digitChar_ne_dash (n % 10) (Nat.mod_lt _ (by decide))

/-- Nat.toDigitsCore with sufficient fuel computes decDigits. -/
theorem toDigitsCore_eq (fuel : Nat) : ∀ (n : Nat) (ds : List Char), n < fuel →
    Nat.toDigitsCore 10 fuel n ds = decDigits n ++ ds := by
  induction fuel with
  | zero => intro n ds h; omega
  | succ f ih =>
    intro n ds h
    show (if n / 10 = 0 then Nat.digitChar (n % 10) :: ds
      else Nat.toDigitsCore 10 f (n / 10) (Nat.digitChar (n % 10) :: ds)) =
      decDigits n ++ ds
    by_cases h0 : n / 10 = 0
    · rw [if_pos h0]
      have hn : n < 10 := by omega
      rw [decDigits_lt n hn, Nat.mod_eq_of_lt hn]
      rfl
    · rw [if_neg h0]
      rw [decDigits_ge n (by omega)]
      rw [ih (n / 10) _ (by omega)]
      rw [List.append_assoc]
      rfl

/-- Nat.toDigits 10 computes decDigits. -/
theorem toDigits_eq (n : Nat) : Nat.toDigits 10 n = decDigits n := by
  unfold Nat.toDigits
  rw [toDigitsCore_eq (n + 1) n [] (by omega)]
  rw [List.append_nil]

/-- The characters of Nat.repr are the decimal digits. -/
theorem nat_repr_data (n : Nat) : (Nat.repr n).data = decDigits n := by
  show Nat.toDigits 10 n = decDigits n
  exact toDigits_eq n

/-- Nat.repr is injective at the character level. -/
theorem nat_repr_data_inj (n m : Nat) (h : (Nat.repr n).data = (Nat.repr m).data) :
    n = m := by
  rw [nat_repr_data, nat_repr_data] at h
  exact decDigits_inj n m h

/-- The segment after the last dash of a dash-free-suffix string. -/
theorem lastDashSuffix (pref digits : List Char) (hd : ∀ c ∈ digits, c ≠ '-') :
    ((pref ++ '-' :: digits).reverse.takeWhile (fun c => c ≠ '-')).reverse = digits := by
  rw [List.reverse_append, List.reverse_cons, List.append_assoc]
  rw [show (['-'] ++ pref.reverse : List Char) = '-' :: pref.reverse from rfl]
  rw [takeWhile_all_append _ digits.reverse '-' pref.reverse
    (fun c hc => decide_eq_true (hd c (List.mem_reverse.mp hc))) (by decide)]
  exact List.reverse_reverse digits

/-- Ids of the Allegro row shape are injective in the row index. -/
theorem allegro_id_inj (c1 c2 : String) (i j : Nat)
    (h : c1 ++ "-" ++ toString i = c2 ++ "-" ++ toString j) : i = j := by
  have hdata := congrArg String.data h
  rw [String.data_append, String.data_append, String.data_append, String.data_append]
    at hdata
  rw [show ("-" : String).data = ['-'] from rfl] at hdata
  rw [List.append_assoc, List.append_assoc] at hdata
  rw [show (['-'] ++ (toString i : String).data : List Char) =
    '-' :: (toString i : String).data from rfl] at hdata
  rw [show (['-'] ++ (toString j : String).data : List Char) =
    '-' :: (toString j : String).data from rfl] at hdata
  have hsuf := congrArg
    (fun l => (List.takeWhile (fun c => c ≠ '-') l.reverse).reverse) hdata
  simp only at hsuf
  rw [lastDashSuffix c1.data (toString i : String).data
      (by rw [show ((toString i : String)).data = (Nat.repr i).data from rfl, nat_repr_data]
          exact decDigits_no_dash i),
    lastDashSuffix c2.data (toString j : String).data
      (by rw [show ((toString j : String)).data = (Nat.repr j).data from rfl, nat_repr_data]
          exact decDigits_no_dash j)] at hsuf
  exact nat_repr_data_inj i j hsuf

/-- Every record produced by the Allegro row loop carries an id ending in
a dash and its 1-based row index, with index at least the starting one. -/
theorem mapCsvRows_mem_id (now : String) (lines : List String) :
    ∀ (i : Nat) (p : Purchase), p ∈ Allegro.mapCsvRows now i lines →
    ∃ c j, i ≤ j ∧ p.id = c ++ "-" ++ toString j := by
  induction lines with
  | nil =>
    intro i p hp
    unfold Allegro.mapCsvRows at hp
    cases hp
  | cons l t ih =>
    intro i p hp
    unfold Allegro.mapCsvRows at hp
    by_cases h5 : (Allegro.parseCsvLine l).length < 5
    · rw [if_pos h5] at hp
      obtain ⟨c, j, hij, hid⟩ := ih (i + 1) p hp
      exact ⟨c, j, by omega, hid⟩
    · rw [if_neg h5] at hp
      by_cases h6 : Allegro.unquote ((Allegro.parseCsvLine l).getD 0 "") = "" ∨
          Allegro.unquote ((Allegro.parseCsvLine l).getD 1 "") = "" ∨
          jsParseFloat (Allegro.unquote ((Allegro.parseCsvLine l).getD 4 "")) = none
      · rw [if_pos h6] at hp
        obtain ⟨c, j, hij, hid⟩ := ih (i + 1) p hp
        exact ⟨c, j, by omega, hid⟩
      · rw [if_neg h6] at hp
        cases hp with
        | head =>
          exact ⟨"allegro-csv-" ++ Allegro.unquote ((Allegro.parseCsvLine l).getD 0 "") ++
            "-" ++ Allegro.unquote ((Allegro.parseCsvLine l).getD 2 ""), i,
            Nat.le_refl i, rfl⟩
        | tail _ hp2 =>
          obtain ⟨c, j, hij, hid⟩ := ih (i + 1) p hp2
          exact ⟨c, j, by omega, hid⟩

/-- The ids produced by the Allegro row loop are pairwise distinct. -/
theorem mapCsvRows_nodup (now : String) (lines : List String) :
    ∀ i : Nat, ((Allegro.mapCsvRows now i lines).map Purchase.id).Nodup := by
  induction lines with
  | nil =>
    intro i
    unfold Allegro.mapCsvRows
    simp
  | cons l t ih =>
    intro i
    unfold Allegro.mapCsvRows
    by_cases h5 : (Allegro.parseCsvLine l).length < 5
    · rw [if_pos h5]
      exact ih (i + 1)
    · rw [if_neg h5]
      by_cases h6 : Allegro.unquote ((Allegro.parseCsvLine l).getD 0 "") = "" ∨
          Allegro.unquote ((Allegro.parseCsvLine l).getD 1 "") = "" ∨
          jsParseFloat (Allegro.unquote ((Allegro.parseCsvLine l).getD 4 "")) = none
      · rw [if_pos h6]
        exact ih (i + 1)
      · rw [if_neg h6]
        rw [List.map_cons, List.nodup_cons]
        refine ⟨?_, ih (i + 1)⟩
        intro hmem
        obtain ⟨p, hp, hpid⟩ := List.mem_map.mp hmem
        obtain ⟨c, j, hij, hid⟩ := mapCsvRows_mem_id now t (i + 1) p hp
        rw [hid] at hpid
        have := allegro_id_inj c _ j i hpid
        omega

/-- The ids produced by the Allegro row loop do not depend on the import
instant. -/
theorem mapCsvRows_id_stable (now1 now2 : String) (lines : List String) :
    ∀ i : Nat, (Allegro.mapCsvRows now1 i lines).map Purchase.id =
      (Allegro.mapCsvRows now2 i lines).map Purchase.id := by
  induction lines with
  | nil =>
    intro i
    rfl
  | cons l t ih =>
    intro i
    unfold Allegro.mapCsvRows
    by_cases h5 : (Allegro.parseCsvLine l).length < 5
    · rw [if_pos h5, if_pos h5]
      exact ih (i + 1)
    · rw [if_neg h5, if_neg h5]
      by_cases h6 : Allegro.unquote ((Allegro.parseCsvLine l).getD 0 "") = "" ∨
          Allegro.unquote ((Allegro.parseCsvLine l).getD 1 "") = "" ∨
          jsParseFloat (Allegro.unquote ((Allegro.parseCsvLine l).getD 4 "")) = none
      · rw [if_pos h6, if_pos h6]
        exact ih (i + 1)
      · rw [if_neg h6, if_neg h6]
        rw [List.map_cons, List.map_cons]
        rw [ih (i + 1)]

/-- A successfully mapped Temu row's id is temu- followed by the order id
alone. -/
theorem temu_id_eq (nd : String → Option String) (now : String)
    (r : Temu.TemuCsvRow) (p : Purchase)
    (h : Temu.mapCsvRowToPurchase nd now r = some p) :
    p.id = "temu-" ++ r.orderId := by
  unfold Temu.mapCsvRowToPurchase at h
  by_cases hr : r.itemDescription = "" ∨ r.orderId = ""
  · rw [if_pos hr] at h
    cases h
  · rw [if_neg hr] at h
    injection h with h
    subst h
    rfl

/-- Claim C9 (amended): ids produced by the Allegro CSV mapper within one
batch are pairwise distinct (the id embeds the 1-based row index after the
last dash) and stable across repeated ingestion (independent of the import
instant); but the Temu mapper derives the id from the order id alone, so
two distinct rows sharing an order id collide. -/
theorem claim_C9 (now now2 text : String) (nd : String → Option String)
    (r1 r2 : Temu.TemuCsvRow) (p1 p2 : Purchase)
    (h1 : Temu.mapCsvRowToPurchase nd now r1 = some p1)
    (h2 : Temu.mapCsvRowToPurchase nd now r2 = some p2)
    (hoid : r1.orderId = r2.orderId) :
    ((Allegro.mapCsvToPurchases now text).map Purchase.id).Nodup ∧
    ((Allegro.mapCsvToPurchases now text).map Purchase.id =
      (Allegro.mapCsvToPurchases now2 text).map Purchase.id) ∧
    p1.id = p2.id := by
  refine ⟨?_, ?_, ?_⟩
  · unfold Allegro.mapCsvToPurchases
    by_cases h : (Allegro.splitLines text).length < 2
    · rw [if_pos h]
      simp
    · rw [if_neg h]
      exact mapCsvRows_nodup now _ 1
  · unfold Allegro.mapCsvToPurchases
    by_cases h : (Allegro.splitLines text).length < 2
    · rw [if_pos h, if_pos h]
    · rw [if_neg h, if_neg h]
      exact mapCsvRows_id_stable now now2 _ 1
  · rw [temu_id_eq nd now r1 p1 h1, temu_id_eq nd now r2 p2 h2, hoid]

/-- Witness for claim C9: the two concrete Temu rows map successfully,
share the order id, the Allegro conclusions hold for a concrete CSV, and
the two mapped Temu ids coincide. -/
theorem claim_C9_witness :
    Temu.mapCsvRowToPurchase ndModel "NOW" c9Row1 = some c9P1 ∧
    Temu.mapCsvRowToPurchase ndModel "NOW" c9Row2 = some c9P2 ∧
    c9Row1.orderId = c9Row2.orderId ∧
    (((Allegro.mapCsvToPurchases "NOW" "id;t;d;q;p\n77;Thing;2024;1;9.99").map
        Purchase.id).Nodup ∧
     ((Allegro.mapCsvToPurchases "NOW" "id;t;d;q;p\n77;Thing;2024;1;9.99").map
        Purchase.id =
      (Allegro.mapCsvToPurchases "LATER" "id;t;d;q;p\n77;Thing;2024;1;9.99").map
        Purchase.id) ∧
     c9P1.id = c9P2.id) :=
  ⟨by with_unfolding_all rfl, by with_unfolding_all rfl, rfl,
   claim_C9 "NOW" "LATER" "id;t;d;q;p\n77;Thing;2024;1;9.99" ndModel c9Row1 c9Row2 c9P1 c9P2
     (by with_unfolding_all rfl) (by with_unfolding_all rfl) rfl⟩

/-- Claim C9 counterexample: two distinct Temu rows sharing Order ID O1
both map, their titles differ, yet their generated ids are equal —
refuting pairwise distinctness of ids within a single batch. -/
theorem claim_C9_cex :
    Temu.mapCsvRowToPurchase ndModel "NOW" c9Row1 = some c9P1 ∧
    Temu.mapCsvRowToPurchase ndModel "NOW" c9Row2 = some c9P2 ∧
    c9P1.title ≠ c9P2.title ∧ c9P1.id = c9P2.id := by
  refine ⟨?_, ?_, ?_, rfl⟩
  · with_unfolding_all rfl
  · with_unfolding_all rfl
  · with_unfolding_all decide

/-! ## Idempotent re-ingestion (claim C2): support lemmas -/

/-- The inner registration fold only maps keys to ids of stored records
with that key. -/
theorem innerFold_sound (store : List Purchase) (l : List Purchase) :
    ∀ (m : KeyMap), (∀ e ∈ l, e ∈ store) →
    (∀ k id, m k = some id → ∃ e ∈ store, e.id = id ∧ dedupKey e = k) →
    ∀ k id,
      l.foldl (fun m3 e => fun k2 => if k2 = dedupKey e then some e.id else m3 k2) m k =
        some id →
      ∃ e ∈ store, e.id = id ∧ dedupKey e = k := by
  induction l with
  | nil =>
    intro m _ hm
    exact hm
  | cons a t ih =>
    intro m hl hm k id h
    rw [List.foldl_cons] at h
    refine ih _ (fun e he => hl e (List.mem_cons_of_mem _ he)) ?_ k id h
    intro k2 id2 h2
    have h3 : (if k2 = dedupKey a then some a.id else m k2) = some id2 := h2
    by_cases hk : k2 = dedupKey a
    · rw [if_pos hk] at h3
      injection h3 with h3
      exact ⟨a, hl a (List.mem_cons_self _ _), h3, hk.symm⟩
    · rw [if_neg hk] at h3
      exact hm k2 id2 h3

/-- The outer per-provider fold only maps keys to ids of stored records
with that key. -/
theorem outerFold_sound (store : List Purchase) (pids : List String) :
    ∀ (m : KeyMap),
    (∀ k id, m k = some id → ∃ e ∈ store, e.id = id ∧ dedupKey e = k) →
    ∀ k id,
      pids.foldl
        (fun m2 pid =>
          (store.filter (fun e2 => e2.providerId = pid)).foldl
            (fun m3 e2 => fun k2 => if k2 = dedupKey e2 then some e2.id else m3 k2) m2)
        m k = some id →
      ∃ e ∈ store, e.id = id ∧ dedupKey e = k := by
  induction pids with
  | nil =>
    intro m hm
    exact hm
  | cons a t ih =>
    intro m hm k id h
    rw [List.foldl_cons] at h
    refine ih _ ?_ k id h
    exact innerFold_sound store _ _ (fun e he => (List.mem_filter.mp he).1) hm

/-- Soundness of the in-memory index: a registered id belongs to a stored
record carrying that dedup key. -/
theorem buildExistingMap_sound (store : List Purchase) (pids : List String)
    (k : String) (id : String) (h : buildExistingMap store pids k = some id) :
    ∃ e ∈ store, e.id = id ∧ dedupKey e = k := by
  unfold buildExistingMap at h
  exact outerFold_sound store pids _ (fun k2 id2 h2 => by cases h2) k id h

/-- Dexie get by primary key: with unique ids, find? returns the member. -/
theorem find_id_eq (l : List Purchase) (e : Purchase) (he : e ∈ l)
    (hu : ∀ e2 ∈ l, e2.id = e.id → e2 = e) :
    l.find? (fun r => r.id == e.id) = some e := by
  induction l with
  | nil => cases he
  | cons a t ih =>
    by_cases ha : a.id = e.id
    · have h2 : a = e := hu a (List.mem_cons_self _ _) ha
      subst h2
      simp [List.find?]
    · rcases List.mem_cons.mp he with h2 | h2
      · subst h2
        exact absurd rfl ha
      · show (match (a.id == e.id) with
          | true => some a
          | false => t.find? (fun r => r.id == e.id)) = some e
        rw [show (a.id == e.id) = false from by simp [ha]]
        exact ih h2 (fun e2 he2 h => hu e2 (List.mem_cons_of_mem _ he2) h)

/-- When every candidate already has an identical stored twin with nothing
to enrich, the loop changes nothing but the skipped counter. -/
theorem foldl_skip (S : List Purchase) (pids : List String)
    (hIdU : ∀ e1 ∈ S, ∀ e2 ∈ S, e1.id = e2.id → e1 = e2)
    (hKeyU : ∀ e1 ∈ S, ∀ e2 ∈ S, dedupKey e1 = dedupKey e2 → e1 = e2)
    (ps : List Purchase) :
    (∀ p ∈ ps, p.providerId ∈ pids) →
    (∀ p ∈ ps, ∃ e ∈ S, dedupKey e = dedupKey p ∧ e.providerId = p.providerId ∧
      identicalCore e p ∧ patchNonempty (enrichPatch e p) = false) →
    ∀ (a sk u en : Nat),
    ps.foldl processOne
      { store := S, keyMap := buildExistingMap S pids,
        added := a, skipped := sk, updated := u, enriched := en } =
      { store := S, keyMap := buildExistingMap S pids,
        added := a, skipped := sk + ps.length, updated := u, enriched := en } := by
  induction ps with
  | nil =>
    intro _ _ a sk u en
    simp
  | cons p t ih =>
    intro hps hmatch a sk u en
    rw [List.foldl_cons]
    obtain ⟨e, he, hkey, hprov, hic, hpt⟩ := hmatch p (List.mem_cons_self _ _)
    have hereg : buildExistingMap S pids (dedupKey e) ≠ none :=
      buildExistingMap_complete S pids e he
        (by rw [hprov]; exact hps p (List.mem_cons_self _ _))
    rw [hkey] at hereg
    cases hval : buildExistingMap S pids (dedupKey p) with
    | none => exact absurd hval hereg
    | some id =>
      obtain ⟨e2, he2, hid2, hkey2⟩ := buildExistingMap_sound S pids (dedupKey p) id hval
      have he2e : e2 = e := hKeyU e2 he2 e he (by rw [hkey2, hkey])
      subst he2e
      have hfind : S.find? (fun r => r.id == id) = some e2 := by
        rw [← hid2]
        exact find_id_eq S e2 he2 (fun x hx hxe => hIdU x hx e2 he2 hxe)
      have hstep : processOne
          { store := S, keyMap := buildExistingMap S pids,
            added := a, skipped := sk, updated := u, enriched := en } p =
          { store := S, keyMap := buildExistingMap S pids,
            added := a, skipped := sk + 1, updated := u, enriched := en } := by
        simp [processOne, hval, hfind, hic, hpt]
      rw [hstep]
      rw [ih (fun q hq => hps q (List.mem_cons_of_mem _ hq))
        (fun q hq => hmatch q (List.mem_cons_of_mem _ hq)) a (sk + 1) u en]
      rw [List.length_cons]
      congr 1
      omega

/-- Claim C2 (amended): re-ingesting a batch each of whose candidates
already has a stored twin with the same dedup key, identical identity
fields and nothing left to enrich (the state a clean first ingest leaves
behind, given unique ids and keys) changes nothing: the store is returned
unchanged and the run reports added = updated = enriched = 0 with every
candidate skipped — so twice yields the same final record count as once.
The unconditional claim fails: see the counterexample, where the second
run reports updated = 2. -/
theorem claim_C2 (S ps : List Purchase)
    (hIdU : ∀ e1 ∈ S, ∀ e2 ∈ S, e1.id = e2.id → e1 = e2)
    (hKeyU : ∀ e1 ∈ S, ∀ e2 ∈ S, dedupKey e1 = dedupKey e2 → e1 = e2)
    (hmatch : ∀ p ∈ ps, ∃ e ∈ S, dedupKey e = dedupKey p ∧
      e.providerId = p.providerId ∧
      identicalCore e p ∧ patchNonempty (enrichPatch e p) = false) :
    addPurchases S ps =
      ({ added := 0, skipped := ps.length, updated := 0, enriched := 0,
         total := ps.length }, S) := by
  have hf := foldl_skip S (uniqueProviderIds ps) hIdU hKeyU ps
    (fun p hp => mem_uniqueProviderIds ps p hp) hmatch 0 0 0 0
  simp only [addPurchases]
  rw [hf]
  simp

/-- Witness for claim C2: a store holding exactly the candidate and the
one-candidate batch satisfy the hypotheses, and re-ingestion returns the
store unchanged with one skipped. -/
theorem claim_C2_witness :
    (∀ e1 ∈ [c1P], ∀ e2 ∈ [c1P], e1.id = e2.id → e1 = e2) ∧
    (∀ e1 ∈ [c1P], ∀ e2 ∈ [c1P], dedupKey e1 = dedupKey e2 → e1 = e2) ∧
    (∀ p ∈ [c1P], ∃ e ∈ [c1P], dedupKey e = dedupKey p ∧
      e.providerId = p.providerId ∧
      identicalCore e p ∧ patchNonempty (enrichPatch e p) = false) ∧
    addPurchases [c1P] [c1P] =
      ({ added := 0, skipped := 1, updated := 0, enriched := 0, total := 1 },
       [c1P]) :=
  ⟨fun e1 he1 e2 he2 _ => by
      rw [List.mem_singleton] at he1 he2
      rw [he1, he2],
   fun e1 he1 e2 he2 _ => by
      rw [List.mem_singleton] at he1 he2
      rw [he1, he2],
   fun p hp => by
      rw [List.mem_singleton] at hp
      subst hp
      exact ⟨c1P, List.mem_singleton.mpr rfl, rfl, rfl, ⟨rfl, rfl, rfl, rfl⟩,
        by with_unfolding_all decide⟩,
   claim_C2 [c1P] [c1P]
     (fun e1 he1 e2 he2 _ => by
        rw [List.mem_singleton] at he1 he2
        rw [he1, he2])
     (fun e1 he1 e2 he2 _ => by
        rw [List.mem_singleton] at he1 he2
        rw [he1, he2])
     (fun p hp => by
        rw [List.mem_singleton] at hp
        subst hp
        exact ⟨c1P, List.mem_singleton.mpr rfl, rfl, rfl, ⟨rfl, rfl, rfl, rfl⟩,
          by with_unfolding_all decide⟩)⟩

set_option maxRecDepth 100000 in
/-- Claim C2 counterexample: the batch of the two same-key candidates,
ingested a second time over the store the first run produced, keeps the
record count but reports updated = 2 — candidates of the second run are
updated with different content, not skipped or enriched, refuting the
unconditional idempotence claim. -/
theorem claim_C2_cex :
    (addPurchases (addPurchases [] [c1P, c1Q]).2 [c1P, c1Q]).1.updated = 2 ∧
    (addPurchases (addPurchases [] [c1P, c1Q]).2 [c1P, c1Q]).1.added = 0 ∧
    (addPurchases (addPurchases [] [c1P, c1Q]).2 [c1P, c1Q]).2 =
      (addPurchases [] [c1P, c1Q]).2 := by
  refine ⟨?_, ?_, ?_⟩ <;> with_unfolding_all decide

end PW
